import Mathlib

/-!
# BankCore: the console workflows of `admin.h`, `staff.h` and `customer.h`

The workflows are embedded as state-passing functions over a `World`:
the characters still to be read from `std::cin`, what was written to
`std::cout`, the members of `BST_Tree` / `Hashtable` that were invoked, and the
state those two classes and the data files own.  Standard input is the whole input:
after its last character the stream is at end of file, where an extraction fails, a
prompt loop never exits and an unchecked `std::cin >> confirm` leaves the
uninitialised variable as it was.

`BST_Tree.h` and `Hashtable.h` are not among the source files.  The workflows
therefore take the members they call as a parameter (`Backend`); the theorems
about the workflows' own guards hold for every backend.  For the statements
that depend on what those members do, `Spec.backend` models them from the
specification; the account file is taken as the sequence of records handed to
`update_server`, and what `load_Server` reads back from it is a parameter
(`Spec.loadVia`) where a statement depends on it.
-/

namespace BankCore

/-! ## `std::cin`: formatted and unformatted input over the remaining characters

The characters are the whole of what standard input still holds: after the last one
the stream is at end of file. -/

/-- The bounds of a 32-bit C++ `int`. -/
def INT_MAX : Int := 2147483647

/-- The least value of a 32-bit C++ `int`. -/
def INT_MIN : Int := -2147483648

/-- A decimal number is a value of `int`. -/
def fitsInt (v : Int) : Bool := decide (INT_MIN ≤ v) && decide (v ≤ INT_MAX)

/-- The value `stream >> x` stores for a decimal number: a number outside `int` stores
the nearest limit (and sets `failbit`). -/
def clampInt (v : Int) : Int :=
  if v < INT_MIN then INT_MIN else if INT_MAX < v then INT_MAX else v

/-- Two's-complement wrap-around of `int` arithmetic. -/
def wrap32 (x : Int) : Int := (x + 2147483648) % 4294967296 - 2147483648

/-- Whitespace of the "C" locale, which formatted extraction skips. -/
def isspace (c : Char) : Bool :=
  c == ' ' || c == '\t' || c == '\n' || c == '\r' || c == Char.ofNat 11 || c == Char.ofNat 12

/-- Leading whitespace is discarded before a formatted extraction. -/
def skipws : List Char → List Char
  | [] => []
  | c :: cs => if isspace c then skipws cs else c :: cs

/-- The result of one formatted extraction: a value was stored, or the extraction
set `failbit`.  `rest` is what the stream still holds. -/
inductive Extract (α : Type) where
  | value (v : α) (rest : List Char)
  | failed (rest : List Char)
  deriving DecidableEq, Repr

/-- Accumulate a run of decimal digits; the run ends at the first other character
or with the characters. -/
def digitsRun : List Char → Nat → Nat × List Char
  | [], n => (n, [])
  | c :: cs, n => if c.isDigit then digitsRun cs (10 * n + (c.toNat - 48)) else (n, c :: cs)

/-- The end of a numeric extraction: a value that `int` cannot hold sets `failbit`. -/
def fitInt (v : Int) (rest : List Char) : Extract Int :=
  if INT_MIN ≤ v ∧ v ≤ INT_MAX then .value v rest else .failed rest

/-- The extraction `stream >> x` for `int x`: skip whitespace, an optional sign,
decimal digits.  No digit, or a value outside `int`, sets `failbit`; so does the end
of the input before a digit.  Digits that run up to the end of the input are a
value. -/
def scanInt (cs : List Char) : Extract Int :=
  match skipws cs with
  | [] => .failed []
  | c :: cs1 =>
    match (if c == '-' || c == '+' then cs1 else c :: cs1) with
    | [] => .failed []
    | d :: ds =>
      if d.isDigit then
        match digitsRun (d :: ds) 0 with
        | (n, rest) => fitInt (if c == '-' then -(n : Int) else (n : Int)) rest
      else .failed (d :: ds)

/-- The extraction `std::cin >> x` for `int x`. -/
def extractInt (cin : List Char) : Extract Int := scanInt cin

/-- The extraction `std::cin >> c` for `char c`: skip whitespace, take one character.
At the end of the input the extraction fails and stores nothing. -/
def extractChar (cin : List Char) : Extract Char :=
  match skipws cin with
  | [] => .failed []
  | c :: cs => .value c cs

/-- The call `std::cin.ignore(numeric_limits<streamsize>::max(), '\n')`:
discard up to and including the next newline.  `none`: the input ends before a
newline; everything is discarded and the stream is at end of file. -/
def ignoreLine : List Char → Option (List Char)
  | [] => none
  | c :: cs => if c == '\n' then some cs else ignoreLine cs

/-- The helpers `clearAdminInputBuffer()`, `clearStaffInputBuffer()` and
`clearCustomerInputBuffer()`: `std::cin.clear()` puts the stream back into the good
state, then the rest of the line is discarded. -/
def clearInputBuffer (cin : List Char) : Option (List Char) := ignoreLine cin

/-- The call `std::getline(std::cin, s)` where a newline is still to come: the
characters before the next newline, which is consumed and not stored.  `none`: the
input ends before a newline. -/
def getline : List Char → Option (List Char × List Char)
  | [] => none
  | c :: cs =>
    if c == '\n' then some ([], cs)
    else match getline cs with
      | some (line, rest) => some (c :: line, rest)
      | none => none

/-! ## The world a workflow runs in -/

/-- One item inserted into `std::cout` with `<<`. -/
inductive Out where
  | str (s : String)
  | int (n : Int)
  deriving DecidableEq, Repr

/-- A member of `BST_Tree` or `Hashtable` invoked by a workflow, with its arguments. -/
inductive Call where
  | load_Server
  | search (account_number : Int)
  | add_Account (name adress : String) (accountno password balance : Int)
  | delete_Account (accountno : Int)
  | update_server
  | deposit (accountno amount : Int)
  | withdraw (accountno amount : Int)
  | transfer (sender amount receiver : Int)
  | printoinfo
  | match_ (accountno password : Int)
  | add (accountno password : Int)
  | delete_password (accountno : Int)
  | displayPasswords
  deriving DecidableEq, Repr

/-- The state a workflow reads and writes.  `sys` is everything behind the
two absent classes: the objects `t` and `h` and the data files. -/
structure World (S : Type) where
  cin : List Char
  cout : List Out
  calls : List Call
  sys : S

/-- How a workflow ends: it returns, or it never does because a prompt loop has
reached the end of the input (`blocked`: every further extraction fails and the loop
repeats its message for ever; the world is the one at the last read). -/
inductive Outcome (S α : Type) where
  | returned (a : α) (w : World S)
  | blocked (w : World S)

/-- The world a run ended in. -/
def Outcome.world {S α : Type} : Outcome S α → World S
  | .returned _ w => w
  | .blocked w => w

/-- A computation over the world. -/
def Run (S α : Type) : Type := World S → Outcome S α

/-- Sequencing: what follows a loop that never exits is not run. -/
def Run.bind {S α β : Type} (x : Run S α) (f : α → Run S β) : Run S β :=
  fun w => match x w with
    | .returned a w1 => f a w1
    | .blocked w1 => .blocked w1

instance {S : Type} : Monad (Run S) where
  pure a := fun w => .returned a w
  bind := Run.bind

/-- The statement `std::cout << a << b << ...`. -/
def put {S : Type} (items : List Out) : Run S Unit :=
  fun w => .returned () { w with cout := w.cout ++ items }

/-- Record the invocation of a member and apply its effect on `sys`. -/
def invoke {S : Type} (c : Call) (effect : S → S) : Run S Unit :=
  fun w => .returned () { w with calls := w.calls ++ [c], sys := effect w.sys }

/-- Read the state behind the absent classes. -/
def getSys {S : Type} : Run S S := fun w => .returned w.sys w

/-- How a prompt loop ends on the input: an entry was accepted, or the input ended
first and the loop never exits (`waiting`).  `echo` is what the loop wrote to
`std::cout` up to there. -/
inductive Entry where
  | accepted (v : Int) (rest : List Char) (echo : List Out)
  | waiting (rest : List Char) (echo : List Out)
  deriving DecidableEq, Repr

/-- The loop `while (!(std::cin >> x) || bad(x)) { std::cout << msg; clearInputBuffer(); }`
on the remaining input.  Each rejected entry costs at least one character, so
`cin.length + 1` rounds suffice (`promptLoop_fuel`).  Once `clearInputBuffer` has
reached the end of the input, every further extraction fails: the loop never exits. -/
def promptLoop (bad : Int → Bool) (msg : String) : Nat → List Char → List Out → Entry
  | 0, cin, echo => .waiting cin echo
  | fuel + 1, cin, echo =>
    match extractInt cin with
    | .value v rest =>
      if bad v then
        match clearInputBuffer rest with
        | none => .waiting rest (echo ++ [.str msg])
        | some rest1 => promptLoop bad msg fuel rest1 (echo ++ [.str msg])
      else .accepted v rest echo
    | .failed rest =>
      match clearInputBuffer rest with
      | none => .waiting rest (echo ++ [.str msg])
      | some rest1 => promptLoop bad msg fuel rest1 (echo ++ [.str msg])

/-- A prompt loop run on the input. -/
def entry (bad : Int → Bool) (msg : String) (cin : List Char) : Entry :=
  promptLoop bad msg (cin.length + 1) cin []

/-- A prompt loop as a computation over the world. -/
def readIntLoop {S : Type} (bad : Int → Bool) (msg : String) : Run S Int :=
  fun w => match entry bad msg w.cin with
    | .accepted v rest echo => .returned v { w with cin := rest, cout := w.cout ++ echo }
    | .waiting rest echo => .blocked { w with cin := rest, cout := w.cout ++ echo }

/-- The loop `while (!(std::cin >> x)) { ... }`: any `int` is accepted. -/
def readInt {S : Type} (msg : String) : Run S Int :=
  readIntLoop (fun _ => false) msg

/-- The loop `while (!(std::cin >> x) || x <= 0) { ... }`. -/
def readPositive {S : Type} (msg : String) : Run S Int :=
  readIntLoop (fun x => decide (x ≤ 0)) msg

/-- The statements `char confirm; std::cin >> confirm;`.  The result of the extraction
is not checked: when the input has ended it fails and `confirm` keeps `confirm0`, the
indeterminate value the uninitialised variable was declared with. -/
def readChar {S : Type} (confirm0 : Char) : Run S Char :=
  fun w => match extractChar w.cin with
    | .value c rest => .returned c { w with cin := rest }
    | .failed rest => .returned confirm0 { w with cin := rest }

/-- The call `std::cin.ignore()`: discard one character, if there is one. -/
def ignoreOne {S : Type} : Run S Unit :=
  fun w => match w.cin with
    | [] => .returned () w
    | _ :: cs => .returned () { w with cin := cs }

/-- The statements `std::string s; std::getline(std::cin, s);` as a computation over
the world.  When the input ends before a newline, `s` is what was left of it, the
empty string when nothing was. -/
def readLine {S : Type} : Run S String :=
  fun w => match getline w.cin with
    | none => .returned (String.mk w.cin) { w with cin := [] }
    | some (line, rest) => .returned (String.mk line) { w with cin := rest }

/-- A write to the state behind the absent classes that is not a member call
(an assignment through a node pointer). -/
def store {S : Type} (effect : S → S) : Run S Unit :=
  fun w => .returned () { w with sys := effect w.sys }

/-! ## The members of the absent classes, as a parameter -/

/-- The fields of a `BST_Node` that the workflows read and write. -/
structure Account where
  name : String
  adress : String
  account_number : Int
  password : Int
  balance : Int
  deriving DecidableEq, Repr

/-- The members of `BST_Tree` and `Hashtable` the workflows call, over the state
`S` they own and the node pointers `P` that `search` hands out.  `node` reads the
fields behind a pointer, `assign` writes them; `transaction_txt` is the content of
`transaction.txt` as its whitespace-separated decimal integer fields (of any size), if
the file opens. -/
structure Backend (S P : Type) where
  load_Server : S → S
  search : S → Int → Option P
  node : S → P → Account
  assign : P → Account → S → S
  add_Account : String → String → Int → Int → Int → S → S
  delete_Account : Int → S → S
  update_server : S → S
  deposit : Int → Int → S → S
  withdraw : Int → Int → S → S
  transfer : Int → Int → Int → S → S
  match_ : S → Int → Int → Bool
  add : Int → Int → S → S
  delete_password : Int → S → S
  transaction_txt : S → Option (List Int)

variable {S P : Type}

/-! ## `staff.h` -/

/-- The workflow `withdrawMoney(BST_Tree& t)` of `staff.h`.  `confirm0` is the indeterminate
value the uninitialised local `confirm` starts with. -/
def withdrawMoney (B : Backend S P) (confirm0 : Char) : Run S Unit := do
  put [.str "\n--- Withdraw Money ---\n\n"]
  put [.str "Enter Account Number: "]
  let accountNumber ← readInt "Invalid input. Please enter a number: "
  invoke .load_Server B.load_Server
  invoke (.search accountNumber) id
  match B.search (← getSys) accountNumber with
  | none =>
    put [.str "\nError: Account number ", .int accountNumber, .str " does not exist!\n"]
  | some account =>
    put [.str "Current Balance: ", .int (B.node (← getSys) account).balance, .str "\n"]
    put [.str "Enter Amount to Withdraw: "]
    let amount ← readPositive "Invalid input. Please enter a positive number: "
    if (B.node (← getSys) account).balance < amount then
      put [.str "\nError: Insufficient balance!\n"]
    else
      put [.str "\nWithdraw ", .int amount, .str " from account ", .int accountNumber,
        .str "? (y/n): "]
      let confirm ← readChar confirm0
      if confirm = 'y' ∨ confirm = 'Y' then
        invoke (.withdraw accountNumber amount) (B.withdraw accountNumber amount)
        put [.str "\nWithdrawal completed successfully!\n"]
        put [.str "New Balance: ", .int (wrap32 ((B.node (← getSys) account).balance - amount)),
          .str "\n"]
      else
        put [.str "\nWithdrawal cancelled.\n"]

/-- The workflow `depositMoney(BST_Tree& t)` of `staff.h`.  `confirm0` is the indeterminate
value the uninitialised local `confirm` starts with. -/
def depositMoney (B : Backend S P) (confirm0 : Char) : Run S Unit := do
  put [.str "\n--- Deposit Money ---\n\n"]
  put [.str "Enter Account Number: "]
  let accountNumber ← readInt "Invalid input. Please enter a number: "
  invoke .load_Server B.load_Server
  invoke (.search accountNumber) id
  match B.search (← getSys) accountNumber with
  | none =>
    put [.str "\nError: Account number ", .int accountNumber, .str " does not exist!\n"]
  | some account =>
    put [.str "Current Balance: ", .int (B.node (← getSys) account).balance, .str "\n"]
    put [.str "Enter Amount to Deposit: "]
    let amount ← readPositive "Invalid input. Please enter a positive number: "
    put [.str "\nDeposit ", .int amount, .str " into account ", .int accountNumber,
      .str "? (y/n): "]
    let confirm ← readChar confirm0
    if confirm = 'y' ∨ confirm = 'Y' then
      invoke (.deposit accountNumber amount) (B.deposit accountNumber amount)
      put [.str "\nDeposit completed successfully!\n"]
      put [.str "New Balance: ", .int (wrap32 ((B.node (← getSys) account).balance + amount)),
        .str "\n"]
    else
      put [.str "\nDeposit cancelled.\n"]

/-- The workflow `transferMoney(BST_Tree& t)` of `staff.h`.  `confirm0` is the indeterminate
value the uninitialised local `confirm` starts with. -/
def transferMoney (B : Backend S P) (confirm0 : Char) : Run S Unit := do
  put [.str "\n--- Transfer Money ---\n\n"]
  put [.str "Enter Sender Account Number: "]
  let senderAccount ← readInt "Invalid input. Please enter a number: "
  invoke .load_Server B.load_Server
  invoke (.search senderAccount) id
  match B.search (← getSys) senderAccount with
  | none =>
    put [.str "\nError: Sender account number ", .int senderAccount, .str " does not exist!\n"]
  | some sender =>
    put [.str "Enter Receiver Account Number: "]
    let receiverAccount ← readInt "Invalid input. Please enter a number: "
    invoke (.search receiverAccount) id
    match B.search (← getSys) receiverAccount with
    | none =>
      put [.str "\nError: Receiver account number ", .int receiverAccount,
        .str " does not exist!\n"]
    | some receiver =>
      put [.str "Enter Amount to Transfer: "]
      let amount ← readPositive "Invalid input. Please enter a positive number: "
      if (B.node (← getSys) sender).balance < amount then
        put [.str "\nError: Insufficient balance in sender account!\n"]
        put [.str "Current Balance: ", .int (B.node (← getSys) sender).balance, .str "\n"]
      else
        put [.str "\nTransfer ", .int amount, .str " from account ", .int senderAccount,
          .str " to account ", .int receiverAccount, .str "? (y/n): "]
        let confirm ← readChar confirm0
        if confirm = 'y' ∨ confirm = 'Y' then
          invoke (.transfer senderAccount amount receiverAccount)
            (B.transfer senderAccount amount receiverAccount)
          put [.str "\nTransfer completed successfully!\n"]
          put [.str "New Balance for Account ", .int senderAccount, .str ": ",
            .int (B.node (← getSys) sender).balance, .str "\n"]
          put [.str "New Balance for Account ", .int receiverAccount, .str ": ",
            .int (B.node (← getSys) receiver).balance, .str "\n"]
        else
          put [.str "\nTransfer cancelled.\n"]

/-- The scan `while (read >> acc) { read >> amount; ... }` over the decimal integer
fields of `transaction.txt`, with the current value of `amount`.  A field outside
`int` fails its extraction: as an account number it ends the loop; as an amount it
stores the nearest limit, the body runs, and the next `read >> acc` ends the loop.
When the file ends after an account number, `read >> amount` fails and leaves
`amount` as it was; the body still runs once and the next `read >> acc` ends the
loop.  The result is what was printed and whether `found` was set. -/
def scanLog (accountNumber : Int) : List Int → Int → List Out × Bool
  | [], _ => ([], false)
  | [acc], amount =>
    if fitsInt acc then
      if acc = accountNumber then
        (if amount > 0 then [.str "Deposit: +", .int amount, .str "\n"]
          else [.str "Withdrawal: ", .int amount, .str "\n"], true)
      else ([], false)
    else ([], false)
  | acc :: field :: rest, _ =>
    if fitsInt acc then
      let amount := clampInt field
      let tail := if fitsInt field then scanLog accountNumber rest amount else ([], false)
      if acc = accountNumber then
        ((if amount > 0 then [.str "Deposit: +", .int amount, .str "\n"]
          else [.str "Withdrawal: ", .int amount, .str "\n"]) ++ tail.1, true)
      else tail
    else ([], false)

/-- The part of both history views from `std::ifstream read("transaction.txt")` on.
`amount0` is the indeterminate value the uninitialised local `amount` starts with. -/
def printHistory (B : Backend S P) (amount0 : Int) (accountNumber : Int) : Run S Unit := do
  match B.transaction_txt (← getSys) with
  | none => put [.str "Error: Could not open transaction file.\n"]
  | some fields =>
    let scan := scanLog accountNumber fields amount0
    put scan.1
    if scan.2 then pure () else put [.str "No transactions found for this account.\n"]

/-- The workflow `viewTransactionHistory()` of `staff.h`. -/
def viewTransactionHistory (B : Backend S P) (amount0 : Int) : Run S Unit := do
  put [.str "\n--- Transaction History ---\n\n"]
  put [.str "Enter Account Number: "]
  let accountNumber ← readInt "Invalid input. Please enter a number: "
  put [.str "\nTransaction History for Account ", .int accountNumber, .str ":\n\n"]
  printHistory B amount0 accountNumber

/-! ## `admin.h` -/

/-- The workflow `addAccount(BST_Tree& t)` of `admin.h`. -/
def addAccount (B : Backend S P) : Run S Unit := do
  put [.str "\n--- Add New Account ---\n\n"]
  put [.str "Enter Name: "]
  ignoreOne
  let name ← readLine
  put [.str "Enter Address: "]
  let address ← readLine
  put [.str "Enter Account Number: "]
  let accountNumber ← readInt "Invalid input. Please enter a number: "
  invoke .load_Server B.load_Server
  invoke (.search accountNumber) id
  match B.search (← getSys) accountNumber with
  | some _ =>
    put [.str "\nError: Account number ", .int accountNumber, .str " already exists!\n"]
  | none =>
    put [.str "Enter Password (numeric): "]
    let password ← readInt "Invalid input. Please enter a number: "
    put [.str "Enter Initial Balance: "]
    let balance ← readIntLoop (fun x => decide (x < 0))
      "Invalid input. Please enter a non-negative number: "
    invoke (.add_Account name address accountNumber password balance)
      (B.add_Account name address accountNumber password balance)
    put [.str "\nAccount created successfully!\n"]

/-- The workflow `deleteAccount(BST_Tree& t, Hashtable& h)` of `admin.h`.  `confirm0` is
the indeterminate value the uninitialised local `confirm` starts with. -/
def deleteAccount (B : Backend S P) (confirm0 : Char) : Run S Unit := do
  put [.str "\n--- Delete Account ---\n\n"]
  put [.str "Enter Account Number: "]
  let accountNumber ← readInt "Invalid input. Please enter a number: "
  invoke .load_Server B.load_Server
  invoke (.search accountNumber) id
  match B.search (← getSys) accountNumber with
  | none =>
    put [.str "\nError: Account number ", .int accountNumber, .str " does not exist!\n"]
  | some _ =>
    put [.str "\nAre you sure you want to delete account ", .int accountNumber,
      .str "? (y/n): "]
    let confirm ← readChar confirm0
    if confirm = 'y' ∨ confirm = 'Y' then
      invoke (.delete_Account accountNumber) (B.delete_Account accountNumber)
      invoke (.delete_password accountNumber) (B.delete_password accountNumber)
      invoke .update_server B.update_server
      put [.str "\nAccount deleted successfully!\n"]
    else
      put [.str "\nDeletion cancelled.\n"]

/-- The workflow `editAccount(BST_Tree& t, Hashtable& h)` of `admin.h`. -/
def editAccount (B : Backend S P) : Run S Unit := do
  put [.str "\n--- Edit Account ---\n\n"]
  put [.str "Enter Account Number: "]
  let accountNumber ← readInt "Invalid input. Please enter a number: "
  invoke .load_Server B.load_Server
  invoke (.search accountNumber) id
  match B.search (← getSys) accountNumber with
  | none =>
    put [.str "\nError: Account number ", .int accountNumber, .str " does not exist!\n"]
  | some account =>
    let shown := B.node (← getSys) account
    put [.str "\nCurrent Account Details:\n"]
    put [.str "Name: ", .str shown.name, .str "\n"]
    put [.str "Address: ", .str shown.adress, .str "\n"]
    put [.str "Account Number: ", .int shown.account_number, .str "\n"]
    put [.str "Password: ", .int shown.password, .str "\n"]
    put [.str "Balance: ", .int shown.balance, .str "\n\n"]
    put [.str "What would you like to edit?\n"]
    put [.str "1. Name\n"]
    put [.str "2. Address\n"]
    put [.str "3. Password\n"]
    put [.str "4. Cancel\n"]
    put [.str "Enter your choice (1-4): "]
    let choice ← readIntLoop (fun x => decide (x < 1) || decide (x > 4))
      "Invalid input. Please enter a number between 1 and 4: "
    ignoreOne
    if choice = 4 then
      put [.str "\nEdit cancelled.\n"]
    else
      if choice = 1 then
        put [.str "Enter new name: "]
        let newName ← readLine
        store (fun s => B.assign account { B.node s account with name := newName } s)
      else if choice = 2 then
        put [.str "Enter new address: "]
        let newAddress ← readLine
        store (fun s => B.assign account { B.node s account with adress := newAddress } s)
      else if choice = 3 then
        put [.str "Enter new password (numeric): "]
        let newPassword ← readInt "Invalid input. Please enter a number: "
        store (fun s => B.assign account { B.node s account with password := newPassword } s)
        invoke (.delete_password accountNumber) (B.delete_password accountNumber)
        invoke (.add accountNumber newPassword) (B.add accountNumber newPassword)
      else
        pure ()
      invoke .update_server B.update_server
      put [.str "\nAccount updated successfully!\n"]

/-! ## `customer.h` -/

/-- The workflow `viewAccountDetails(BST_Tree& t, Hashtable& h)` of `customer.h`. -/
def viewAccountDetails (B : Backend S P) : Run S Unit := do
  put [.str "\n--- View Account Details ---\n\n"]
  put [.str "Enter Account Number: "]
  let accountNumber ← readInt "Invalid input. Please enter a number: "
  put [.str "Enter Password: "]
  let password ← readInt "Invalid input. Please enter a number: "
  invoke (.match_ accountNumber password) id
  if B.match_ (← getSys) accountNumber password then
    invoke .load_Server B.load_Server
    invoke (.search accountNumber) id
    match B.search (← getSys) accountNumber with
    | none => put [.str "\nError: Account not found!\n"]
    | some account =>
      let shown := B.node (← getSys) account
      put [.str "\n--- Account Details ---\n\n"]
      put [.str "Name: ", .str shown.name, .str "\n"]
      put [.str "Address: ", .str shown.adress, .str "\n"]
      put [.str "Account Number: ", .int shown.account_number, .str "\n"]
      put [.str "Balance: ", .int shown.balance, .str "\n"]
  else
    put [.str "\nError: Invalid account number or password!\n"]

/-- The workflow `viewCustomerTransactionHistory(BST_Tree& t, Hashtable& h)` of `customer.h`. -/
def viewCustomerTransactionHistory (B : Backend S P) (amount0 : Int) : Run S Unit := do
  put [.str "\n--- Transaction History ---\n\n"]
  put [.str "Enter Account Number: "]
  let accountNumber ← readInt "Invalid input. Please enter a number: "
  put [.str "Enter Password: "]
  let password ← readInt "Invalid input. Please enter a number: "
  invoke (.match_ accountNumber password) id
  if B.match_ (← getSys) accountNumber password then
    invoke .load_Server B.load_Server
    invoke (.search accountNumber) id
    match B.search (← getSys) accountNumber with
    | none => put [.str "\nError: Account not found!\n"]
    | some _ =>
      put [.str "\nTransaction History for Account ", .int accountNumber, .str ":\n\n"]
      printHistory B amount0 accountNumber
  else
    put [.str "\nError: Invalid account number or password!\n"]

/-! ## The absent classes, modelled from the specification -/

namespace Spec

/-- Modelled from the spec: the node type of `BST_Tree.h` (absent), an ordered
binary tree of account records keyed by account number (spec §3, AccountStore). -/
inductive BST_Node where
  | nullptr : BST_Node
  | node (left : BST_Node) (data : Account) (right : BST_Node) : BST_Node
  deriving DecidableEq, Repr

/-- Modelled from the spec: the state owned by `BST_Tree` and `Hashtable` (both
absent) and the data files.  `server` is the account file as the sequence of
logical records last persisted into it (spec §4.3: a flat sequence of fixed-arity
tuples, one logical record per unit), empty when the file is absent; the text the
records are written as is in the absent code.  `table` holds the credential entries;
`transaction` is the log as its decimal integer fields, `none` before the file
exists. -/
structure Bank where
  Root : BST_Node
  server : List Account
  table : List (Int × Int)
  transaction : Option (List Int)
  deriving DecidableEq, Repr

/-- Modelled from the spec: `find` of §4.1 (`BST_Tree::search`, absent): the standard
binary-search-tree descent comparing keys. -/
def find : BST_Node → Int → Option Account
  | .nullptr, _ => none
  | .node l d r, k =>
    if k = d.account_number then some d
    else if k < d.account_number then find l k
    else find r k

/-- Modelled from the spec: the leaf insertion of §4.1 (walk from the root comparing
keys, attach at the first empty child slot). -/
def attach : BST_Node → Account → BST_Node
  | .nullptr, a => .node .nullptr a .nullptr
  | .node l d r, a =>
    if a.account_number < d.account_number then .node (attach l a) d r
    else .node l d (attach r a)

/-- Modelled from the spec: `insert(record)` of §4.1: fails with `DuplicateAccount`
(the tree is left as it is) if `find` succeeds first; otherwise inserts as a leaf. -/
def insert (root : BST_Node) (a : Account) : BST_Node :=
  match find root a.account_number with
  | some _ => root
  | none => attach root a

/-- Modelled from the spec: the minimum of a subtree, the in-order successor used by
`delete` (§4.1). -/
def minimum : BST_Node → Option Account
  | .nullptr => none
  | .node .nullptr d _ => some d
  | .node (.node ll ld lr) _ _ => minimum (.node ll ld lr)

/-- Modelled from the spec: `delete(accountNumber) -> Tree` of §4.1
(`BST_Tree::delete_Account`, absent): a leaf is removed, a single-child node is
replaced by its child, a two-child node by its in-order successor, whose own node is
then removed from the right subtree. -/
def delete_Account : BST_Node → Int → BST_Node
  | .nullptr, _ => .nullptr
  | .node l d r, k =>
    if k < d.account_number then .node (delete_Account l k) d r
    else if d.account_number < k then .node l d (delete_Account r k)
    else
      match l, r with
      | .nullptr, _ => r
      | _, .nullptr => l
      | _, _ =>
        match minimum r with
        | some m => .node l m (delete_Account r m.account_number)
        | none => l

/-- Modelled from the spec: `inOrderList()` of §4.1: left subtree, node, right subtree. -/
def inorder : BST_Node → List Account
  | .nullptr => []
  | .node l d r => inorder l ++ d :: inorder r

/-- Modelled from the spec: `updateBalance(accountNumber, delta)` of §4.1: locates the
node and adjusts the balance in place, in `int` arithmetic, without any check on the
result. -/
def updateBalance : BST_Node → Int → Int → BST_Node
  | .nullptr, _, _ => .nullptr
  | .node l d r, k, delta =>
    if k = d.account_number then .node l { d with balance := wrap32 (d.balance + delta) } r
    else if k < d.account_number then .node (updateBalance l k delta) d r
    else .node l d (updateBalance r k delta)

/-- Modelled from the spec: an assignment to the fields of the node that `search`
returned (`account->name = ...`); the pointer is the key the node was found under. -/
def assignNode : BST_Node → Int → Account → BST_Node
  | .nullptr, _, _ => .nullptr
  | .node l d r, k, a =>
    if k = d.account_number then .node l a r
    else if k < d.account_number then .node (assignNode l k a) d r
    else .node l d (assignNode r k a)

/-- Modelled from the spec: `reload()` of §4.1 (`BST_Tree::load_Server`, absent):
discards the tree and inserts the records of the backing file in file order through
the normal insert path (§4.3).  The records read back are the records persisted, the
round trip of spec §8; `loadVia` is the reload that reads back something else. -/
def load_Server (b : Bank) : Bank :=
  { b with Root := b.server.foldl insert .nullptr }

/-- Modelled from the spec: `persist()` of §4.1 (`BST_Tree::update_server`, absent):
the in-order traversal of the tree overwrites the backing file. -/
def update_server (b : Bank) : Bank :=
  { b with server := inorder b.Root }

/-- The log after one more entry `{accountNumber, signedAmount}`. -/
def appendLog (log : Option (List Int)) (accountno amount : Int) : Option (List Int) :=
  some (log.getD [] ++ [accountno, amount])

/-- Modelled from the spec: `deposit` of §4.4 (`BST_Tree::deposit`, absent):
`updateBalance(+amount)`, one log entry, persist. -/
def deposit (accountno amount : Int) (b : Bank) : Bank :=
  update_server { b with
    Root := updateBalance b.Root accountno amount
    transaction := appendLog b.transaction accountno amount }

/-- Modelled from the spec: `withdraw` of §4.4 (`BST_Tree::withdraw`, absent):
`updateBalance(-amount)`, one log entry, persist.  The balance check is the caller's. -/
def withdraw (accountno amount : Int) (b : Bank) : Bank :=
  update_server { b with
    Root := updateBalance b.Root accountno (-amount)
    transaction := appendLog b.transaction accountno (-amount) }

/-- Modelled from the spec: `transfer` of §4.4 (`BST_Tree::transfer`, absent): debits
the sender, credits the receiver, appends two log entries, persists once. -/
def transfer (sender amount receiver : Int) (b : Bank) : Bank :=
  update_server { b with
    Root := updateBalance (updateBalance b.Root sender (-amount)) receiver amount
    transaction := appendLog (appendLog b.transaction sender (-amount)) receiver amount }

/-- Modelled from the spec: `remove(accountNumber)` of §4.2
(`Hashtable::delete_password`, absent): deletes the entry if present. -/
def delete_password (accountno : Int) (b : Bank) : Bank :=
  { b with table := b.table.filter (fun e => e.1 ≠ accountno) }

/-- Modelled from the spec: `set(accountNumber, password)` of §4.2 (`Hashtable::add`,
absent): inserts or overwrites the entry for that key. -/
def add (accountno password : Int) (b : Bank) : Bank :=
  { b with table := (accountno, password) :: b.table.filter (fun e => e.1 ≠ accountno) }

/-- Modelled from the spec: `BST_Tree::add_Account` (absent), account creation.
`addAccount` hands the record and its password to this member and to no other, and
makes no further call before it reports the account as created; so it is the
`insert(record)` of §4.1, the `set(accountNumber, password)` of §4.2 ("used both on
account creation and on password edit") and the persist step (the backing file is
"rewritten after each mutation", §1). -/
def add_Account (name adress : String) (accountno password balance : Int) (b : Bank) : Bank :=
  update_server (add accountno password
    { b with Root := insert b.Root ⟨name, adress, accountno, password, balance⟩ })

/-- Modelled from the spec: `verify(accountNumber, password)` of §4.2
(`Hashtable::match`, absent): true iff an entry exists for the account number and its
stored password equals the supplied value. -/
def match_ (b : Bank) (accountno password : Int) : Bool :=
  b.table.lookup accountno == some password

/-- The fields behind a node pointer; a pointer whose node is gone reads as an
all-zero record. -/
def node (b : Bank) (p : Int) : Account :=
  (find b.Root p).getD ⟨"", "", 0, 0, 0⟩

/-- Modelled from the spec: the members of `BST_Tree` and `Hashtable` (both absent)
that the workflows call.  A node pointer is the key of the node it points to. -/
def backend : Backend Bank Int where
  load_Server := load_Server
  search := fun b k => (find b.Root k).map (fun d => d.account_number)
  node := node
  assign := fun p a b => { b with Root := assignNode b.Root p a }
  add_Account := add_Account
  delete_Account := fun k b => { b with Root := delete_Account b.Root k }
  update_server := update_server
  deposit := deposit
  withdraw := withdraw
  transfer := transfer
  match_ := match_
  add := add
  delete_password := delete_password
  transaction_txt := fun b => b.transaction

/-- Modelled from the spec: `reload()` when the records read back are `parse` of the
records `persist()` wrote.  The serialisation in `update_server` and the parser in
`load_Server` are absent and §4.3 leaves the text format open; `parse` is what the two
together make of a sequence of records, the identity when the round trip is lossless
(`load_Server`). -/
def loadVia (parse : List Account → List Account) (b : Bank) : Bank :=
  { b with Root := (parse b.server).foldl insert .nullptr }

/-- Modelled from the spec: the members of the absent classes, with `loadVia parse`
for `load_Server`. -/
def backendVia (parse : List Account → List Account) : Backend Bank Int :=
  { backend with load_Server := loadVia parse }

/-- The stores before the first run: no files, nothing in memory. -/
def empty : Bank := ⟨.nullptr, [], [], none⟩

/-- The account file of the scenario of spec §8 after the deposit: accounts
50, 100 (balance 600) and 150, with their credentials. -/
def scenario : Bank :=
  { Root := .nullptr
    server := [⟨"Bea", "2 Low Rd", 50, 2222, 40⟩, ⟨"Ann", "1 High St", 100, 1111, 600⟩,
      ⟨"Cy", "3 Mid Ln", 150, 3333, 0⟩]
    table := [(50, 2222), (100, 1111), (150, 3333)]
    transaction := some [100, 100] }

end Spec

/-! ## Vocabulary of the statements -/

/-- The re-prompt text of the loops that accept any `int`. -/
def askNumber : String := "Invalid input. Please enter a number: "

/-- The re-prompt text of the loops that accept a positive `int`. -/
def askPositive : String := "Invalid input. Please enter a positive number: "

/-- The re-prompt text of the edit menu. -/
def askChoice : String := "Invalid input. Please enter a number between 1 and 4: "

/-- The integer fields of a log made of complete `(accountNumber, signedAmount)` pairs. -/
def logFields : List (Int × Int) → List Int
  | [] => []
  | (acc, amount) :: rest => acc :: amount :: logFields rest

/-- The line the history views print for one matching pair. -/
def historyLine (amount : Int) : List Out :=
  if amount > 0 then [.str "Deposit: +", .int amount, .str "\n"]
  else [.str "Withdrawal: ", .int amount, .str "\n"]

/-- The history as the claim words it: one line per pair whose account number is the
queried one, in log order. -/
def historyLines (accountNumber : Int) (log : List (Int × Int)) : List Out :=
  ((log.filter (fun p => p.1 == accountNumber)).map (fun p => historyLine p.2)).flatten

/-- The closing message of a history view: printed exactly when no pair matches. -/
def historyClosing (accountNumber : Int) (log : List (Int × Int)) : List Out :=
  if log.any (fun p => p.1 == accountNumber) then []
  else [.str "No transactions found for this account.\n"]

/-- The value the local `amount` holds once the scan has read the complete pairs of
`log`: the amount of the last pair, or the start value when there is none. -/
def staleAmount : Int → List (Int × Int) → Int
  | amount0, [] => amount0
  | _, (_, amount) :: rest => staleAmount amount rest

/-- What a history view prints after the lines of the complete pairs of `log` when the
file ends with the single account number `trailing`: one more line, with the amount
left over in `amount`, when `trailing` is the queried number, and the closing message
of the complete pairs otherwise. -/
def historyTrailing (accountNumber trailing amount0 : Int) (log : List (Int × Int)) :
    List Out :=
  if trailing = accountNumber then historyLine (staleAmount amount0 log)
  else historyClosing accountNumber log

/-- The value of `confirm` the workflows test after `std::cin >> confirm` on the
remaining input: the next character that is not whitespace or, when the input ends
before one, the indeterminate value `confirm0` of the uninitialised variable. -/
def confirmValue (confirm0 : Char) (cin : List Char) : Char :=
  match extractChar cin with
  | .value c _ => c
  | .failed _ => confirm0

/-- What `std::cin >> confirm` leaves of the input. -/
def afterConfirm (cin : List Char) : List Char :=
  match extractChar cin with
  | .value _ rest => rest
  | .failed rest => rest

/-- The line `std::getline` stores and what it leaves of the input, also when the
input ends before a newline. -/
def lineOf (cin : List Char) : List Char × List Char :=
  match getline cin with
  | some p => p
  | none => (cin, [])

/-- Every field of a log is a value of `int`. -/
def intFields (log : List (Int × Int)) : Prop :=
  ∀ p ∈ log, fitsInt p.1 = true ∧ fitsInt p.2 = true

instance (log : List (Int × Int)) : Decidable (intFields log) := by
  unfold intFields
  infer_instance

/-- The amount a money-movement member is called with is strictly positive. -/
def Call.amountPositive : Call → Prop
  | .deposit _ amount => 0 < amount
  | .withdraw _ amount => 0 < amount
  | .transfer _ amount _ => 0 < amount
  | _ => True

/-- A world whose standard input holds the given characters and then ends, with
nothing printed or invoked yet. -/
def typed (input : String) (sys : S) : World S :=
  { cin := input.toList, cout := [], calls := [], sys := sys }

/-- The workflows of the invariant on balances, each with the indeterminate value of
its uninitialised local `confirm`. -/
inductive Workflow where
  | addAccount
  | depositMoney (confirm0 : Char)
  | withdrawMoney (confirm0 : Char)
  | transferMoney (confirm0 : Char)
  deriving DecidableEq, Repr

/-- The workflow a name stands for. -/
def Workflow.run {S P : Type} (B : Backend S P) : Workflow → Run S Unit
  | .addAccount => BankCore.addAccount B
  | .depositMoney confirm0 => BankCore.depositMoney B confirm0
  | .withdrawMoney confirm0 => BankCore.withdrawMoney B confirm0
  | .transferMoney confirm0 => BankCore.transferMoney B confirm0

/-- The workflows of `admin.h` that insert and delete accounts; `deleteAccount` with
the indeterminate value of its uninitialised local `confirm`. -/
inductive AdminStep where
  | addAccount
  | deleteAccount (confirm0 : Char)
  deriving DecidableEq, Repr

/-- The workflow a name stands for. -/
def AdminStep.run {S P : Type} (B : Backend S P) : AdminStep → Run S Unit
  | .addAccount => BankCore.addAccount B
  | .deleteAccount confirm0 => BankCore.deleteAccount B confirm0

namespace Spec

/-- A sequence of workflows, each run on the characters typed for it, over the
backend modelled from the spec, reloading through `parse`; the result is the state
after the last one. -/
def session (parse : List Account → List Account) : List (Workflow × String) → Bank → Bank
  | [], b => b
  | (f, input) :: rest, b =>
    session parse rest (f.run (backendVia parse) (typed input b)).world.sys

/-- A history of insertions and deletions: `addAccount` and `deleteAccount` runs, each
on the characters typed for it, over the backend modelled from the spec; the result
is the state after the last one. -/
def history : List (AdminStep × String) → Bank → Bank
  | [], b => b
  | (f, input) :: rest, b => history rest (f.run backend (typed input b)).world.sys

/-- Modelled from the spec: the records that "View All Accounts" lists, case 3 of the
menu of `admin()`: `t.load_Server(); t.printoinfo(t.Root);`, with
`BST_Tree::printoinfo` (absent) the in-order traversal of §4.1. -/
def viewAllAccounts (b : Bank) : List Account := inorder (load_Server b).Root

/-- The ordering invariant of the account store (spec §3): for every node, all keys
in the left subtree are smaller and all keys in the right subtree are larger. -/
def Ordered : BST_Node → Prop
  | .nullptr => True
  | .node l d r =>
    Ordered l ∧ Ordered r ∧
    (∀ a ∈ inorder l, a.account_number < d.account_number) ∧
    (∀ a ∈ inorder r, d.account_number < a.account_number)

/-- The tree is ordered and the account file is strictly increasing in the account
number. -/
def Sorted (b : Bank) : Prop :=
  Ordered b.Root ∧ b.server.Pairwise (fun a c => a.account_number < c.account_number)

end Spec

/-! ## Theorems -/

/-! ### `std::cin` -/

/-- An entry that a prompt loop accepts is not one it rejects. -/
theorem promptLoop_accepted (bad : Int → Bool) (msg : String) :
    ∀ (fuel : Nat) (cin : List Char) (echo : List Out) (v : Int) (rest : List Char)
      (e : List Out), promptLoop bad msg fuel cin echo = .accepted v rest e → bad v = false := by
  intro fuel
  induction fuel with
  | zero => intro cin echo v rest e h; simp [promptLoop] at h
  | succ n ih =>
    intro cin echo v rest e h
    unfold promptLoop at h
    split at h
    · split at h
      · split at h
        · simp at h
        · exact ih _ _ _ _ _ h
      · simp at h
        rcases h with ⟨rfl, -, -⟩
        simp_all
    · split at h
      · simp at h
      · exact ih _ _ _ _ _ h

/-- The amount loops only let a strictly positive amount through. -/
theorem entry_positive (msg : String) (cin : List Char) (v : Int) (rest : List Char)
    (e : List Out) (h : entry (fun x => decide (x ≤ 0)) msg cin = .accepted v rest e) :
    0 < v := by
  have := promptLoop_accepted _ _ _ _ _ _ _ _ h
  simpa using this

/-- A value that passes the range check is a value of type `int`. -/
theorem fitInt_range (x : Int) (r : List Char) (v : Int) (rest : List Char)
    (h : fitInt x r = .value v rest) : INT_MIN ≤ v ∧ v ≤ INT_MAX := by
  unfold fitInt at h
  split at h
  · cases h; assumption
  · cases h

/-- A successful extraction yields a value of type `int`. -/
theorem scanInt_range (cs : List Char) (v : Int) (rest : List Char)
    (h : scanInt cs = .value v rest) : INT_MIN ≤ v ∧ v ≤ INT_MAX := by
  unfold scanInt at h
  split at h
  · cases h
  · split at h
    · cases h
    · split at h
      · exact fitInt_range _ _ _ _ h
      · cases h

/-- A successful extraction from `std::cin` yields a value of type `int`. -/
theorem extractInt_range (cin : List Char) (v : Int) (rest : List Char)
    (h : extractInt cin = .value v rest) : INT_MIN ≤ v ∧ v ≤ INT_MAX :=
  scanInt_range cin v rest h

/-- An entry that a prompt loop accepts is a value of type `int`. -/
theorem promptLoop_range (bad : Int → Bool) (msg : String) :
    ∀ (fuel : Nat) (cin : List Char) (echo : List Out) (v : Int) (rest : List Char)
      (e : List Out), promptLoop bad msg fuel cin echo = .accepted v rest e →
      INT_MIN ≤ v ∧ v ≤ INT_MAX := by
  intro fuel
  induction fuel with
  | zero => intro cin echo v rest e h; simp [promptLoop] at h
  | succ n ih =>
    intro cin echo v rest e h
    unfold promptLoop at h
    split at h
    · rename_i v1 rest1 hx
      split at h
      · split at h
        · simp at h
        · exact ih _ _ _ _ _ h
      · simp at h
        rcases h with ⟨rfl, -, -⟩
        exact extractInt_range _ _ _ hx
    · split at h
      · simp at h
      · exact ih _ _ _ _ _ h

/-- Skipping whitespace only removes characters. -/
theorem skipws_length (cs : List Char) : (skipws cs).length ≤ cs.length := by
  induction cs with
  | nil => simp [skipws]
  | cons c cs ih =>
    unfold skipws
    split
    · exact le_trans ih (by simp)
    · exact le_refl _

/-- A digit run only removes characters. -/
theorem digitsRun_length (cs : List Char) :
    ∀ n, (digitsRun cs n).2.length ≤ cs.length := by
  induction cs with
  | nil => intro n; simp [digitsRun]
  | cons c cs ih =>
    intro n
    unfold digitsRun
    split
    · exact le_trans (ih _) (by simp)
    · exact le_refl _

/-- The range check consumes nothing. -/
theorem fitInt_rest (x : Int) (r : List Char) :
    (∀ v rest, fitInt x r = .value v rest → rest = r) ∧
    (∀ rest, fitInt x r = .failed rest → rest = r) := by
  unfold fitInt
  split
  · exact ⟨fun v rest h => (by cases h; rfl), fun rest h => (by cases h)⟩
  · exact ⟨fun v rest h => (by cases h), fun rest h => (by cases h; rfl)⟩

/-- What an extraction leaves is no longer than what it was given, and shorter when
it succeeded. -/
theorem scanInt_length (cs : List Char) :
    (∀ v rest, scanInt cs = .value v rest → rest.length < cs.length) ∧
    (∀ rest, scanInt cs = .failed rest → rest.length ≤ cs.length) := by
  have hs := skipws_length cs
  unfold scanInt
  split
  · constructor
    · intro v rest h; cases h
    · intro rest h; cases h; simp
  · rename_i c cs1 hsk
    rw [hsk] at hs
    simp only [List.length_cons] at hs
    have hbody : ∀ body, (if (c == '-' || c == '+') = true then cs1 else c :: cs1) = body →
        body.length ≤ cs1.length + 1 := by
      intro body hb
      split at hb <;> subst hb <;> simp
    split
    · constructor
      · intro v rest h; cases h
      · intro rest h; cases h; simp
    · rename_i d ds hb
      have hbl := hbody _ hb
      simp only [List.length_cons] at hbl
      by_cases hdig : d.isDigit = true
      · have hstep : digitsRun (d :: ds) 0 = digitsRun ds (10 * 0 + (d.toNat - 48)) := by
          simp [digitsRun, hdig]
        have hrun2 := digitsRun_length ds (10 * 0 + (d.toNat - 48))
        rw [← hstep] at hrun2
        rw [if_pos hdig]
        generalize digitsRun (d :: ds) 0 = p at hrun2 ⊢
        obtain ⟨n, rest0⟩ := p
        simp only at hrun2 ⊢
        constructor
        · intro v rest h
          rw [(fitInt_rest _ _).1 v rest h]
          omega
        · intro rest h
          rw [(fitInt_rest _ _).2 rest h]
          omega
      · rw [if_neg hdig]
        constructor
        · intro v rest h; cases h
        · intro rest h
          cases h
          simp only [List.length_cons]
          omega

/-- Discarding a line removes at least its newline. -/
theorem ignoreLine_length (cs : List Char) :
    ∀ rest, ignoreLine cs = some rest → rest.length < cs.length := by
  induction cs with
  | nil => intro rest h; simp [ignoreLine] at h
  | cons c cs ih =>
    intro rest h
    unfold ignoreLine at h
    split at h
    · cases h; simp
    · exact lt_trans (ih _ h) (by simp)

/-- The rounds `cin.length + 1` given to a prompt loop never run out: any larger
number of rounds gives the same result. -/
theorem promptLoop_fuel (bad : Int → Bool) (msg : String) :
    ∀ (f1 f2 : Nat) (cin : List Char) (echo : List Out),
      cin.length < f1 → cin.length < f2 →
      promptLoop bad msg f1 cin echo = promptLoop bad msg f2 cin echo := by
  intro f1
  induction f1 with
  | zero => intro f2 cin echo h; omega
  | succ n ih =>
    intro f2 cin echo h1 h2
    cases f2 with
    | zero => omega
    | succ m =>
      have hlen := scanInt_length cin
      unfold promptLoop
      cases hx : extractInt cin with
      | value v rest =>
        have hr := hlen.1 v rest hx
        simp only
        split
        · cases hi : clearInputBuffer rest with
          | none => rfl
          | some rest1 =>
            have := ignoreLine_length rest rest1 hi
            exact ih m rest1 _ (by omega) (by omega)
        · rfl
      | failed rest =>
        have hr := hlen.2 rest hx
        simp only
        cases hi : clearInputBuffer rest with
        | none => rfl
        | some rest1 =>
          have := ignoreLine_length rest rest1 hi
          exact ih m rest1 _ (by omega) (by omega)

/-- An accepted entry took at least one character. -/
theorem promptLoop_consumes (bad : Int → Bool) (msg : String) :
    ∀ (fuel : Nat) (cin : List Char) (echo : List Out) (v : Int) (rest : List Char)
      (e : List Out), promptLoop bad msg fuel cin echo = .accepted v rest e →
      rest.length < cin.length := by
  intro fuel
  induction fuel with
  | zero => intro cin echo v rest e h; simp [promptLoop] at h
  | succ n ih =>
    intro cin echo v rest e h
    have hlen := scanInt_length cin
    unfold promptLoop at h
    split at h
    · rename_i v1 rest1 hx
      have hr := hlen.1 v1 rest1 hx
      split at h
      · split at h
        · simp at h
        · rename_i rest2 hi
          have := ignoreLine_length rest1 rest2 hi
          have := ih _ _ _ _ _ h
          omega
      · simp at h
        rcases h with ⟨-, rfl, -⟩
        exact hr
    · rename_i rest1 hx
      have hr := hlen.2 rest1 hx
      split at h
      · simp at h
      · rename_i rest2 hi
        have := ignoreLine_length rest1 rest2 hi
        have := ih _ _ _ _ _ h
        omega

/-- The unchecked `std::cin >> confirm`, in one step. -/
theorem readChar_eq (confirm0 : Char) (w : World S) :
    readChar confirm0 w
      = .returned (confirmValue confirm0 w.cin) { w with cin := afterConfirm w.cin } := by
  unfold readChar confirmValue afterConfirm
  cases extractChar w.cin <;> rfl

/-- The call `std::cin.ignore()`, in one step. -/
theorem ignoreOne_eq (w : World S) :
    ignoreOne w = .returned () { w with cin := w.cin.tail } := by
  unfold ignoreOne
  cases h : w.cin with
  | nil =>
    have : w = { w with cin := [] } := by rw [← h]
    simp [h]
    exact this
  | cons c cs => rfl

/-- The call `std::getline`, in one step. -/
theorem readLine_eq (w : World S) :
    readLine w = .returned (String.mk (lineOf w.cin).1) { w with cin := (lineOf w.cin).2 } := by
  unfold readLine lineOf
  cases getline w.cin <;> rfl

/-! ### Every run of a workflow, case by case -/

/-- Every run of `depositMoney`: either one `deposit` of a positive amount into an
account that was found, right after the reload, or no mutating member at all. -/
theorem depositMoney_cases (B : Backend S P) (confirm0 : Char) (w : World S) :
    (∃ accountNumber amount account,
        B.search (B.load_Server w.sys) accountNumber = some account ∧
        0 < amount ∧ amount ≤ INT_MAX ∧
        (depositMoney B confirm0 w).world.calls = w.calls ++ [.load_Server,
          .search accountNumber, .deposit accountNumber amount] ∧
        (depositMoney B confirm0 w).world.sys
          = B.deposit accountNumber amount (B.load_Server w.sys))
    ∨ ((depositMoney B confirm0 w).world.calls = w.calls ∧
        (depositMoney B confirm0 w).world.sys = w.sys)
    ∨ (∃ accountNumber,
        (depositMoney B confirm0 w).world.calls
          = w.calls ++ [.load_Server, .search accountNumber] ∧
        (depositMoney B confirm0 w).world.sys = B.load_Server w.sys) := by
  cases h1 : entry (fun _ => false) "Invalid input. Please enter a number: " w.cin with
  | waiting r e =>
    right; left
    simp [depositMoney, bind, Run.bind, put, invoke, getSys, readInt, readPositive, readIntLoop, readChar_eq, Outcome.world, h1]
  | accepted k r1 e1 =>
    cases h2 : B.search (B.load_Server w.sys) k with
    | none =>
      right; right
      exact ⟨k, by simp [depositMoney, bind, Run.bind, put, invoke, getSys, readInt, readPositive, readIntLoop, readChar_eq, Outcome.world, h1, h2]⟩
    | some account =>
      cases h3 : entry (fun x => decide (x ≤ 0))
          "Invalid input. Please enter a positive number: " r1 with
      | waiting r e =>
        right; right
        exact ⟨k, by simp [depositMoney, bind, Run.bind, put, invoke, getSys, readInt, readPositive, readIntLoop, readChar_eq, Outcome.world, h1, h2, h3]⟩
      | accepted amount r2 e2 =>
        by_cases h5 : confirmValue confirm0 r2 = 'y' ∨ confirmValue confirm0 r2 = 'Y'
        · left
          refine ⟨k, amount, account, h2, entry_positive _ _ _ _ _ h3,
            (promptLoop_range _ _ _ _ _ _ _ _ h3).2, ?_, ?_⟩ <;>
          simp [depositMoney, bind, Run.bind, put, invoke, getSys, readInt, readPositive, readIntLoop, readChar_eq, Outcome.world, h1, h2, h3, h5]
        · right; right
          exact ⟨k, by simp [depositMoney, bind, Run.bind, put, invoke, getSys, readInt, readPositive, readIntLoop, readChar_eq, Outcome.world, h1, h2, h3, h5]⟩

/-- Every run of `withdrawMoney`: either one `withdraw` of a positive amount that the
found account's balance covers, right after the reload, or no mutating member at all. -/
theorem withdrawMoney_cases (B : Backend S P) (confirm0 : Char) (w : World S) :
    (∃ accountNumber amount account,
        B.search (B.load_Server w.sys) accountNumber = some account ∧
        0 < amount ∧ amount ≤ (B.node (B.load_Server w.sys) account).balance ∧
        (withdrawMoney B confirm0 w).world.calls = w.calls ++ [.load_Server,
          .search accountNumber, .withdraw accountNumber amount] ∧
        (withdrawMoney B confirm0 w).world.sys
          = B.withdraw accountNumber amount (B.load_Server w.sys))
    ∨ ((withdrawMoney B confirm0 w).world.calls = w.calls ∧
        (withdrawMoney B confirm0 w).world.sys = w.sys)
    ∨ (∃ accountNumber,
        (withdrawMoney B confirm0 w).world.calls
          = w.calls ++ [.load_Server, .search accountNumber] ∧
        (withdrawMoney B confirm0 w).world.sys = B.load_Server w.sys) := by
  cases h1 : entry (fun _ => false) "Invalid input. Please enter a number: " w.cin with
  | waiting r e =>
    right; left
    simp [withdrawMoney, bind, Run.bind, put, invoke, getSys, readInt, readPositive, readIntLoop, readChar_eq, Outcome.world, h1]
  | accepted k r1 e1 =>
    cases h2 : B.search (B.load_Server w.sys) k with
    | none =>
      right; right
      exact ⟨k, by simp [withdrawMoney, bind, Run.bind, put, invoke, getSys, readInt, readPositive, readIntLoop, readChar_eq, Outcome.world, h1, h2]⟩
    | some account =>
      cases h3 : entry (fun x => decide (x ≤ 0))
          "Invalid input. Please enter a positive number: " r1 with
      | waiting r e =>
        right; right
        exact ⟨k, by simp [withdrawMoney, bind, Run.bind, put, invoke, getSys, readInt, readPositive, readIntLoop, readChar_eq, Outcome.world, h1, h2, h3]⟩
      | accepted amount r2 e2 =>
        by_cases h6 : (B.node (B.load_Server w.sys) account).balance < amount
        · right; right
          exact ⟨k, by simp [withdrawMoney, bind, Run.bind, put, invoke, getSys, readInt, readPositive, readIntLoop, readChar_eq, Outcome.world, h1, h2, h3, h6]⟩
        · by_cases h5 : confirmValue confirm0 r2 = 'y' ∨ confirmValue confirm0 r2 = 'Y'
          · left
            refine ⟨k, amount, account, h2, entry_positive _ _ _ _ _ h3, not_lt.mp h6,
              ?_, ?_⟩ <;>
            simp [withdrawMoney, bind, Run.bind, put, invoke, getSys, readInt, readPositive, readIntLoop, readChar_eq, Outcome.world, h1, h2, h3, h5, h6]
          · right; right
            exact ⟨k, by simp [withdrawMoney, bind, Run.bind, put, invoke, getSys, readInt, readPositive, readIntLoop, readChar_eq, Outcome.world, h1, h2, h3, h5, h6]⟩

/-- Every run of `transferMoney`: either both accounts were found, the entered amount
is positive and covered by the sender's balance, the value of `confirm` is `y` or `Y`,
and `transfer` was invoked once with exactly these arguments; or no mutating member
was invoked at all. -/
theorem transferMoney_cases (B : Backend S P) (confirm0 : Char) (w : World S) :
    (∃ senderAccount receiverAccount amount sender receiver r1 e1 r2 e2 r3 e3,
        entry (fun _ => false) askNumber w.cin = .accepted senderAccount r1 e1 ∧
        B.search (B.load_Server w.sys) senderAccount = some sender ∧
        entry (fun _ => false) askNumber r1 = .accepted receiverAccount r2 e2 ∧
        B.search (B.load_Server w.sys) receiverAccount = some receiver ∧
        entry (fun x => decide (x ≤ 0)) askPositive r2 = .accepted amount r3 e3 ∧
        0 < amount ∧ amount ≤ (B.node (B.load_Server w.sys) sender).balance ∧
        (confirmValue confirm0 r3 = 'y' ∨ confirmValue confirm0 r3 = 'Y') ∧
        (transferMoney B confirm0 w).world.calls = w.calls ++ [.load_Server,
          .search senderAccount, .search receiverAccount,
          .transfer senderAccount amount receiverAccount] ∧
        (transferMoney B confirm0 w).world.sys
          = B.transfer senderAccount amount receiverAccount (B.load_Server w.sys))
    ∨ ((transferMoney B confirm0 w).world.calls = w.calls ∧
        (transferMoney B confirm0 w).world.sys = w.sys)
    ∨ (∃ senderAccount,
        (transferMoney B confirm0 w).world.calls
          = w.calls ++ [.load_Server, .search senderAccount] ∧
        (transferMoney B confirm0 w).world.sys = B.load_Server w.sys)
    ∨ (∃ senderAccount receiverAccount,
        (transferMoney B confirm0 w).world.calls = w.calls ++ [.load_Server,
          .search senderAccount, .search receiverAccount] ∧
        (transferMoney B confirm0 w).world.sys = B.load_Server w.sys) := by
  simp only [askNumber, askPositive]
  cases h1 : entry (fun _ => false) "Invalid input. Please enter a number: " w.cin with
  | waiting r e =>
    right; left
    simp [transferMoney, bind, Run.bind, put, invoke, getSys, readInt, readPositive, readIntLoop, readChar_eq, Outcome.world, h1]
  | accepted s r1 e1 =>
    cases h2 : B.search (B.load_Server w.sys) s with
    | none =>
      right; right; left
      exact ⟨s, by simp [transferMoney, bind, Run.bind, put, invoke, getSys, readInt, readPositive, readIntLoop, readChar_eq, Outcome.world, h1, h2]⟩
    | some sender =>
      cases h3 : entry (fun _ => false) "Invalid input. Please enter a number: " r1 with
      | waiting r e =>
        right; right; left
        exact ⟨s, by simp [transferMoney, bind, Run.bind, put, invoke, getSys, readInt, readPositive, readIntLoop, readChar_eq, Outcome.world, h1, h2, h3]⟩
      | accepted rc r2 e2 =>
        cases h4 : B.search (B.load_Server w.sys) rc with
        | none =>
          right; right; right
          exact ⟨s, rc, by simp [transferMoney, bind, Run.bind, put, invoke, getSys, readInt, readPositive, readIntLoop, readChar_eq, Outcome.world, h1, h2, h3, h4]⟩
        | some receiver =>
          cases h5 : entry (fun x => decide (x ≤ 0))
              "Invalid input. Please enter a positive number: " r2 with
          | waiting r e =>
            right; right; right
            exact ⟨s, rc, by simp [transferMoney, bind, Run.bind, put, invoke, getSys, readInt, readPositive, readIntLoop, readChar_eq, Outcome.world, h1, h2, h3, h4, h5]⟩
          | accepted amount r3 e3 =>
            by_cases h6 : (B.node (B.load_Server w.sys) sender).balance < amount
            · right; right; right
              exact ⟨s, rc, by simp [transferMoney, bind, Run.bind, put, invoke, getSys, readInt, readPositive, readIntLoop, readChar_eq, Outcome.world, h1, h2, h3, h4, h5, h6]⟩
            · by_cases h8 : confirmValue confirm0 r3 = 'y' ∨ confirmValue confirm0 r3 = 'Y'
              · left
                refine ⟨s, rc, amount, sender, receiver, r1, e1, r2, e2, r3, e3,
                  rfl, h2, h3, h4, h5, entry_positive _ _ _ _ _ h5, not_lt.mp h6, h8,
                  ?_, ?_⟩ <;>
                simp [transferMoney, bind, Run.bind, put, invoke, getSys, readInt, readPositive, readIntLoop, readChar_eq, Outcome.world, h1, h2, h3, h4, h5, h6, h8]
              · right; right; right
                exact ⟨s, rc, by simp [transferMoney, bind, Run.bind, put, invoke, getSys, readInt, readPositive, readIntLoop, readChar_eq, Outcome.world, h1, h2, h3, h4, h5, h6, h8]⟩

/-- Every run of `addAccount`: either `search` returned `nullptr` for the entered
number and `add_Account` was invoked once with a balance in `0 .. INT_MAX`, whereupon
the workflow returned; or no mutating member was invoked at all.  A run that never
gets to `load_Server` does not return. -/
theorem addAccount_cases (B : Backend S P) (w : World S) :
    (∃ name address accountNumber password balance w1,
        B.search (B.load_Server w.sys) accountNumber = none ∧
        0 ≤ balance ∧ balance ≤ INT_MAX ∧
        INT_MIN ≤ accountNumber ∧ accountNumber ≤ INT_MAX ∧
        INT_MIN ≤ password ∧ password ≤ INT_MAX ∧
        addAccount B w = .returned () w1 ∧
        (addAccount B w).world.calls = w.calls ++ [.load_Server, .search accountNumber,
          .add_Account name address accountNumber password balance] ∧
        (addAccount B w).world.sys
          = B.add_Account name address accountNumber password balance (B.load_Server w.sys))
    ∨ ((addAccount B w).world.calls = w.calls ∧ (addAccount B w).world.sys = w.sys ∧
        ∀ w1, addAccount B w ≠ .returned () w1)
    ∨ (∃ accountNumber,
        (addAccount B w).world.calls = w.calls ++ [.load_Server, .search accountNumber] ∧
        (addAccount B w).world.sys = B.load_Server w.sys) := by
  cases h1 : entry (fun _ => false) "Invalid input. Please enter a number: "
      (lineOf (lineOf w.cin.tail).2).2 with
  | waiting r e =>
    right; left
    simp [addAccount, bind, Run.bind, put, invoke, getSys, readInt, readPositive, readIntLoop, readChar_eq, ignoreOne_eq, readLine_eq, store, Outcome.world, h1]
  | accepted k r1 e1 =>
    cases h2 : B.search (B.load_Server w.sys) k with
    | some account =>
      right; right
      exact ⟨k, by simp [addAccount, bind, Run.bind, put, invoke, getSys, readInt, readPositive, readIntLoop, readChar_eq, ignoreOne_eq, readLine_eq, store, Outcome.world, h1, h2]⟩
    | none =>
      cases h3 : entry (fun _ => false) "Invalid input. Please enter a number: " r1 with
      | waiting r e =>
        right; right
        exact ⟨k, by simp [addAccount, bind, Run.bind, put, invoke, getSys, readInt, readPositive, readIntLoop, readChar_eq, ignoreOne_eq, readLine_eq, store, Outcome.world, h1, h2, h3]⟩
      | accepted pw r2 e2 =>
        cases h4 : entry (fun x => decide (x < 0))
            "Invalid input. Please enter a non-negative number: " r2 with
        | waiting r e =>
          right; right
          exact ⟨k, by simp [addAccount, bind, Run.bind, put, invoke, getSys, readInt, readPositive, readIntLoop, readChar_eq, ignoreOne_eq, readLine_eq, store, Outcome.world, h1, h2, h3, h4]⟩
        | accepted bal r3 e3 =>
          left
          have hb := promptLoop_accepted _ _ _ _ _ _ _ _ h4
          refine ⟨String.mk (lineOf w.cin.tail).1, String.mk (lineOf (lineOf w.cin.tail).2).1,
            k, pw, bal, (addAccount B w).world, h2, by simpa using hb,
            (promptLoop_range _ _ _ _ _ _ _ _ h4).2,
            (promptLoop_range _ _ _ _ _ _ _ _ h1).1, (promptLoop_range _ _ _ _ _ _ _ _ h1).2,
            (promptLoop_range _ _ _ _ _ _ _ _ h3).1, (promptLoop_range _ _ _ _ _ _ _ _ h3).2,
            ?_, ?_, ?_⟩ <;>
          simp [addAccount, bind, Run.bind, put, invoke, getSys, readInt, readPositive, readIntLoop, readChar_eq, ignoreOne_eq, readLine_eq, store, Outcome.world, h1, h2, h3, h4]

/-- Every run of `deleteAccount`: either the account was found, the value of `confirm`
was `y` or `Y`, and `delete_Account`, `delete_password` and `update_server` were
invoked in this order; or no mutating member was invoked at all.  A run that never
gets to `load_Server` does not return. -/
theorem deleteAccount_cases (B : Backend S P) (confirm0 : Char) (w : World S) :
    (∃ accountNumber account,
        B.search (B.load_Server w.sys) accountNumber = some account ∧
        (deleteAccount B confirm0 w).world.calls = w.calls ++ [.load_Server,
          .search accountNumber, .delete_Account accountNumber,
          .delete_password accountNumber, .update_server] ∧
        (deleteAccount B confirm0 w).world.sys = B.update_server
          (B.delete_password accountNumber
            (B.delete_Account accountNumber (B.load_Server w.sys))))
    ∨ ((deleteAccount B confirm0 w).world.calls = w.calls ∧
        (deleteAccount B confirm0 w).world.sys = w.sys ∧
        ∀ w1, deleteAccount B confirm0 w ≠ .returned () w1)
    ∨ (∃ accountNumber,
        (deleteAccount B confirm0 w).world.calls
          = w.calls ++ [.load_Server, .search accountNumber] ∧
        (deleteAccount B confirm0 w).world.sys = B.load_Server w.sys) := by
  cases h1 : entry (fun _ => false) "Invalid input. Please enter a number: " w.cin with
  | waiting r e =>
    right; left
    simp [deleteAccount, bind, Run.bind, put, invoke, getSys, readInt, readPositive, readIntLoop, readChar_eq, ignoreOne_eq, readLine_eq, store, Outcome.world, h1]
  | accepted k r1 e1 =>
    cases h2 : B.search (B.load_Server w.sys) k with
    | none =>
      right; right
      exact ⟨k, by simp [deleteAccount, bind, Run.bind, put, invoke, getSys, readInt, readPositive, readIntLoop, readChar_eq, ignoreOne_eq, readLine_eq, store, Outcome.world, h1, h2]⟩
    | some account =>
      by_cases h5 : confirmValue confirm0 r1 = 'y' ∨ confirmValue confirm0 r1 = 'Y'
      · left
        refine ⟨k, account, h2, ?_, ?_⟩ <;>
        simp [deleteAccount, bind, Run.bind, put, invoke, getSys, readInt, readPositive, readIntLoop, readChar_eq, ignoreOne_eq, readLine_eq, store, Outcome.world, h1, h2, h5]
      · right; right
        exact ⟨k, by simp [deleteAccount, bind, Run.bind, put, invoke, getSys, readInt, readPositive, readIntLoop, readChar_eq, ignoreOne_eq, readLine_eq, store, Outcome.world, h1, h2, h5]⟩

/-- C1: `withdrawMoney` rejects an overdraft.  When the entered account number is
found in the reloaded store and the entered amount (which the amount loop only
accepts when positive) exceeds that account's balance, the workflow prints the
insufficient-balance error and returns; the only members invoked are `load_Server`
and `search`, never `withdraw`, so the state behind `t` is exactly the reloaded
store. -/
theorem withdrawMoney_rejects_overdraft (B : Backend S P) (confirm0 : Char) (w : World S)
    (accountNumber amount : Int) (account : P) (r1 r2 : List Char) (e1 e2 : List Out)
    (hacc : entry (fun _ => false) askNumber w.cin = .accepted accountNumber r1 e1)
    (hfound : B.search (B.load_Server w.sys) accountNumber = some account)
    (hamt : entry (fun x => decide (x ≤ 0)) askPositive r1 = .accepted amount r2 e2)
    (hlow : (B.node (B.load_Server w.sys) account).balance < amount) :
    0 < amount ∧
    withdrawMoney B confirm0 w = .returned ()
      { cin := r2
        cout := w.cout ++ [.str "\n--- Withdraw Money ---\n\n", .str "Enter Account Number: "]
          ++ e1 ++ [.str "Current Balance: ",
              .int (B.node (B.load_Server w.sys) account).balance,
              .str "\n", .str "Enter Amount to Withdraw: "]
          ++ e2 ++ [.str "\nError: Insufficient balance!\n"]
        calls := w.calls ++ [.load_Server, .search accountNumber]
        sys := B.load_Server w.sys } := by
  refine ⟨entry_positive _ _ _ _ _ hamt, ?_⟩
  simp only [askNumber, askPositive] at hacc hamt
  simp [withdrawMoney, bind, Run.bind, put, invoke, getSys, readInt, readPositive, readIntLoop,
    hacc, hfound, hamt, hlow]

/-- Witness of C1: the scenario of spec §8, withdrawing 700 from account 100 that
holds 600. -/
theorem withdrawMoney_rejects_overdraft_witness :
    0 < (700 : Int) ∧
    withdrawMoney Spec.backend 'n' (typed "100\n700\n" Spec.scenario) = .returned ()
      { cin := ['\n']
        cout := [.str "\n--- Withdraw Money ---\n\n", .str "Enter Account Number: ",
          .str "Current Balance: ", .int 600, .str "\n", .str "Enter Amount to Withdraw: ",
          .str "\nError: Insufficient balance!\n"]
        calls := [.load_Server, .search 100]
        sys := Spec.load_Server Spec.scenario } :=
  withdrawMoney_rejects_overdraft Spec.backend 'n' (typed "100\n700\n" Spec.scenario) 100 700
    100
    ['\n', '7', '0', '0', '\n'] ['\n'] [] [] (by decide) (by decide) (by decide) (by decide)

/-- C2 fails at the end of the input: `t.transfer` can run without a confirmation.
The first four guards hold in every run (`transferMoney_cases`), but the extraction
`std::cin >> confirm` is not checked.  When both accounts are found, the amount is
positive and covered by the sender's balance, and the input ends before a
confirmation character, the extraction fails, `confirm` keeps the indeterminate value
`confirm0` it was declared with, and the workflow returns having invoked `transfer`
exactly when that value is `y` or `Y`, although no confirmation was entered. -/
theorem transferMoney_without_confirmation (B : Backend S P) (confirm0 : Char) (w : World S)
    (senderAccount receiverAccount amount : Int) (sender receiver : P)
    (r1 r2 r3 : List Char) (e1 e2 e3 : List Out)
    (hsender : entry (fun _ => false) askNumber w.cin = .accepted senderAccount r1 e1)
    (hs : B.search (B.load_Server w.sys) senderAccount = some sender)
    (hreceiver : entry (fun _ => false) askNumber r1 = .accepted receiverAccount r2 e2)
    (hr : B.search (B.load_Server w.sys) receiverAccount = some receiver)
    (hamount : entry (fun x => decide (x ≤ 0)) askPositive r2 = .accepted amount r3 e3)
    (hcover : amount ≤ (B.node (B.load_Server w.sys) sender).balance)
    (hend : skipws r3 = []) :
    0 < amount ∧
    ∃ w1, transferMoney B confirm0 w = .returned () w1 ∧
      w1.cin = [] ∧
      w1.calls = w.calls ++ [.load_Server, .search senderAccount, .search receiverAccount]
        ++ (if confirm0 = 'y' ∨ confirm0 = 'Y'
            then [.transfer senderAccount amount receiverAccount] else []) ∧
      w1.sys = (if confirm0 = 'y' ∨ confirm0 = 'Y'
        then B.transfer senderAccount amount receiverAccount (B.load_Server w.sys)
        else B.load_Server w.sys) := by
  refine ⟨entry_positive _ _ _ _ _ hamount, ?_⟩
  simp only [askNumber, askPositive] at hsender hreceiver hamount
  have hlow : ¬ (B.node (B.load_Server w.sys) sender).balance < amount := not_lt.mpr hcover
  have hcv : confirmValue confirm0 r3 = confirm0 := by simp [confirmValue, extractChar, hend]
  have hac : afterConfirm r3 = [] := by simp [afterConfirm, extractChar, hend]
  by_cases hy : confirm0 = 'y' ∨ confirm0 = 'Y'
  · refine ⟨(transferMoney B confirm0 w).world, ?_, ?_, ?_, ?_⟩ <;>
    simp [transferMoney, bind, Run.bind, put, invoke, getSys, readInt, readPositive,
      readIntLoop, readChar_eq, Outcome.world, hsender, hs, hreceiver, hr, hamount, hlow,
      hcv, hac, hy]
  · refine ⟨(transferMoney B confirm0 w).world, ?_, ?_, ?_, ?_⟩ <;>
    simp [transferMoney, bind, Run.bind, put, invoke, getSys, readInt, readPositive,
      readIntLoop, readChar_eq, Outcome.world, hsender, hs, hreceiver, hr, hamount, hlow,
      hcv, hac, hy]

/-- Witness of C2 failing: the transfer of 50 from account 100 to account 150 of the
scenario of spec §8; the input ends after the amount, the uninitialised `confirm`
happens to hold `y`, and the transfer is made. -/
theorem transferMoney_without_confirmation_witness :
    ∃ w1, transferMoney Spec.backend 'y' (typed "100\n150\n50\n" Spec.scenario)
        = .returned () w1 ∧
      w1.cin = [] ∧
      w1.calls = [] ++ [.load_Server, .search 100, .search 150] ++ [.transfer 100 50 150] ∧
      w1.sys = Spec.transfer 100 50 150 (Spec.load_Server Spec.scenario) :=
  (transferMoney_without_confirmation Spec.backend 'y'
    (typed "100\n150\n50\n" Spec.scenario) 100 150 50 100 150
    "\n150\n50\n".toList "\n50\n".toList ['\n'] [] [] []
    (by decide) (by decide) (by decide) (by decide) (by decide) (by decide) (by decide)).2

/-- C3: a non-positive amount never reaches the store.  In every run of
`depositMoney`, `withdrawMoney` and `transferMoney`, whether it returns or stays in a
prompt loop for ever, and whatever the uninitialised `confirm` holds, each `deposit`, `withdraw` or `transfer` among the members the run invoked was
passed an amount strictly greater than 0. -/
theorem amount_passed_is_positive (B : Backend S P) (confirm0 : Char) (w : World S) :
    (∃ new, (depositMoney B confirm0 w).world.calls = w.calls ++ new ∧
      ∀ c ∈ new, c.amountPositive) ∧
    (∃ new, (withdrawMoney B confirm0 w).world.calls = w.calls ++ new ∧
      ∀ c ∈ new, c.amountPositive) ∧
    (∃ new, (transferMoney B confirm0 w).world.calls = w.calls ++ new ∧
      ∀ c ∈ new, c.amountPositive) := by
  refine ⟨?_, ?_, ?_⟩
  · rcases depositMoney_cases B confirm0 w with ⟨k, m, p, -, hm, -, hc, -⟩ | ⟨hc, -⟩ | ⟨k, hc, -⟩
    · exact ⟨_, hc, by simp [Call.amountPositive, hm]⟩
    · exact ⟨[], by simp [hc], by simp⟩
    · exact ⟨_, hc, by simp [Call.amountPositive]⟩
  · rcases withdrawMoney_cases B confirm0 w with ⟨k, m, p, -, hm, -, hc, -⟩ | ⟨hc, -⟩ | ⟨k, hc, -⟩
    · exact ⟨_, hc, by simp [Call.amountPositive, hm]⟩
    · exact ⟨[], by simp [hc], by simp⟩
    · exact ⟨_, hc, by simp [Call.amountPositive]⟩
  · rcases transferMoney_cases B confirm0 w with
      ⟨s, r, m, -, -, -, -, -, -, -, -, -, -, -, -, -, hm, -, -, hc, -⟩ | ⟨hc, -⟩ |
      ⟨s, hc, -⟩ | ⟨s, r, hc, -⟩
    · exact ⟨_, hc, by simp [Call.amountPositive, hm]⟩
    · exact ⟨[], by simp [hc], by simp⟩
    · exact ⟨_, hc, by simp [Call.amountPositive]⟩
    · exact ⟨_, hc, by simp [Call.amountPositive]⟩

/-- C5: `addAccount` rejects a duplicate key.  When `search` finds the entered
account number in the reloaded store, the workflow prints that the account already
exists and returns; the members invoked are `load_Server` and `search` only, never
`add_Account`, and the state behind `t` is exactly the reloaded store. -/
theorem addAccount_rejects_duplicate (B : Backend S P) (w : World S)
    (c : Char) (cs name rest1 address rest2 r1 : List Char) (e1 : List Out)
    (accountNumber : Int) (account : P)
    (hcin : w.cin = c :: cs)
    (hname : getline cs = some (name, rest1))
    (haddress : getline rest1 = some (address, rest2))
    (hacc : entry (fun _ => false) askNumber rest2 = .accepted accountNumber r1 e1)
    (hfound : B.search (B.load_Server w.sys) accountNumber = some account) :
    addAccount B w = .returned ()
      { cin := r1
        cout := w.cout ++ [.str "\n--- Add New Account ---\n\n", .str "Enter Name: ",
          .str "Enter Address: ", .str "Enter Account Number: "] ++ e1 ++
          [.str "\nError: Account number ", .int accountNumber, .str " already exists!\n"]
        calls := w.calls ++ [.load_Server, .search accountNumber]
        sys := B.load_Server w.sys } := by
  simp only [askNumber] at hacc
  simp [addAccount, bind, Run.bind, put, invoke, getSys, readInt, readIntLoop, ignoreOne,
    readLine, hcin, hname, haddress, hacc, hfound]

/-- Witness of C5: adding account number 100 again to the scenario of spec §8. -/
theorem addAccount_rejects_duplicate_witness :
    addAccount Spec.backend (typed "\nAnn Lee\n9 New Rd\n100\n" Spec.scenario) = .returned ()
      { cin := ['\n']
        cout := [.str "\n--- Add New Account ---\n\n", .str "Enter Name: ",
          .str "Enter Address: ", .str "Enter Account Number: ",
          .str "\nError: Account number ", .int 100, .str " already exists!\n"]
        calls := [.load_Server, .search 100]
        sys := Spec.load_Server Spec.scenario } :=
  addAccount_rejects_duplicate Spec.backend (typed "\nAnn Lee\n9 New Rd\n100\n" Spec.scenario)
    '\n' "Ann Lee\n9 New Rd\n100\n".toList "Ann Lee".toList "9 New Rd\n100\n".toList
    "9 New Rd".toList "100\n".toList ['\n'] [] 100 100
    (by decide) (by decide) (by decide) (by decide) (by decide)

/-! ### The history views and the credential gate -/

/-- A value of `int` is stored as it is. -/
theorem clampInt_of_fitsInt (v : Int) (h : fitsInt v = true) : clampInt v = v := by
  simp only [fitsInt, INT_MIN, INT_MAX, Bool.and_eq_true, decide_eq_true_eq] at h
  simp only [clampInt, INT_MIN, INT_MAX]
  split
  · omega
  · split
    · omega
    · rfl

/-- The fields of a log after its first pair are values of `int` when all are. -/
theorem intFields_tail (p : Int × Int) (rest : List (Int × Int)) (h : intFields (p :: rest)) :
    intFields rest :=
  fun q hq => h q (List.mem_cons_of_mem _ hq)

/-- On a log of complete pairs of `int` values the scan prints the filtered lines and
sets `found` exactly when a pair matches, whatever `amount` held before. -/
theorem scanLog_logFields (accountNumber : Int) (log : List (Int × Int)) :
    intFields log → ∀ amount0, scanLog accountNumber (logFields log) amount0
      = (historyLines accountNumber log, log.any (fun p => p.1 == accountNumber)) := by
  induction log with
  | nil => intro _ a; simp [logFields, scanLog, historyLines]
  | cons p rest ih =>
    intro hint a
    obtain ⟨acc, amount⟩ := p
    have h1 := (hint (acc, amount) (List.mem_cons_self _ _)).1
    have h2 := (hint (acc, amount) (List.mem_cons_self _ _)).2
    simp only at h1 h2
    have ih1 := ih (intFields_tail _ _ hint) amount
    simp only [logFields, scanLog, h1, h2, clampInt_of_fitsInt _ h2, if_true, ih1]
    by_cases h : acc = accountNumber
    · simp [h, historyLines, historyLine, List.filter_cons]
    · simp [h, historyLines, List.filter_cons]

/-- C9 as stated fails on a field that `int` cannot hold: for the log
`(100, 99999999999) (100, 5)` and the query 100 the claim asks for the two lines
`Deposit: +99999999999` and `Deposit: +5`, but `read >> amount` stores `INT_MAX` and
sets `failbit`, the body prints `Deposit: +2147483647`, and the next `read >> acc`
ends the scan. -/
theorem history_is_linear_filter_counterexample :
    (viewTransactionHistory Spec.backend 0
        (typed "100\n" { Spec.scenario with
          transaction := some (logFields [(100, 99999999999), (100, 5)]) })).world.cout
      = [.str "\n--- Transaction History ---\n\n", .str "Enter Account Number: ",
          .str "\nTransaction History for Account ", .int 100, .str ":\n\n",
          .str "Deposit: +", .int 2147483647, .str "\n"] ∧
    historyLines 100 [(100, 99999999999), (100, 5)]
      = [.str "Deposit: +", .int 99999999999, .str "\n", .str "Deposit: +", .int 5,
          .str "\n"] := by
  constructor <;> decide

/-- C9 amended: the history query is a linear filter of a log of `int` values.  For a
log of complete `(accountNumber, signedAmount)` pairs whose fields are all values of
`int`, `viewTransactionHistory` returns having printed, after its header, exactly one
line per pair whose account number is the queried one, in log order (`Deposit: +a`
when `a > 0`, `Withdrawal: a` otherwise), followed by `No transactions found for this
account.` exactly when no pair matches; `viewCustomerTransactionHistory` prints the
same once the credentials match and the account is found.  The start value of the
uninitialised `amount` does not matter. -/
theorem history_is_linear_filter (B : Backend S P) (w : World S) (amount0 : Int)
    (accountNumber : Int) (log : List (Int × Int)) (r1 : List Char) (e1 : List Out)
    (hacc : entry (fun _ => false) askNumber w.cin = .accepted accountNumber r1 e1)
    (hint : intFields log)
    (hlog : B.transaction_txt w.sys = some (logFields log)) :
    viewTransactionHistory B amount0 w = .returned ()
      { w with
        cin := r1
        cout := w.cout ++ [.str "\n--- Transaction History ---\n\n",
            .str "Enter Account Number: "] ++ e1
          ++ [.str "\nTransaction History for Account ", .int accountNumber, .str ":\n\n"]
          ++ historyLines accountNumber log ++ historyClosing accountNumber log } ∧
    (historyClosing accountNumber log = [.str "No transactions found for this account.\n"]
      ↔ ∀ p ∈ log, p.1 ≠ accountNumber) ∧
    ∀ (password : Int) (r2 : List Char) (e2 : List Out) (account : P),
      entry (fun _ => false) askNumber r1 = .accepted password r2 e2 →
      B.match_ w.sys accountNumber password = true →
      B.search (B.load_Server w.sys) accountNumber = some account →
      B.transaction_txt (B.load_Server w.sys) = some (logFields log) →
      viewCustomerTransactionHistory B amount0 w = .returned ()
        { cin := r2
          cout := w.cout ++ [.str "\n--- Transaction History ---\n\n",
              .str "Enter Account Number: "] ++ e1 ++ [.str "Enter Password: "] ++ e2
            ++ [.str "\nTransaction History for Account ", .int accountNumber, .str ":\n\n"]
            ++ historyLines accountNumber log ++ historyClosing accountNumber log
          calls := w.calls ++ [.match_ accountNumber password, .load_Server,
            .search accountNumber]
          sys := B.load_Server w.sys } := by
  simp only [askNumber] at hacc ⊢
  refine ⟨?_, ?_, ?_⟩
  · by_cases h : log.any (fun p => p.1 == accountNumber) = true
    · simp [viewTransactionHistory, printHistory, bind, Run.bind, put, getSys, readInt,
        readIntLoop, hacc, hlog, scanLog_logFields _ _ hint, historyClosing, h, pure]
    · simp [viewTransactionHistory, printHistory, bind, Run.bind, put, getSys, readInt,
        readIntLoop, hacc, hlog, scanLog_logFields _ _ hint, historyClosing, h, pure]
  · by_cases h : log.any (fun p => p.1 == accountNumber) = true
    · simp only [historyClosing, h, if_true]
      simp only [List.any_eq_true, beq_iff_eq] at h
      obtain ⟨p, hp, hk⟩ := h
      constructor
      · intro hh; cases hh
      · intro hh; exact absurd hk (hh p hp)
    · simp only [historyClosing, h]
      simp only [List.any_eq_true, beq_iff_eq, not_exists, not_and] at h
      simpa using h
  · intro password r2 e2 account hpw hm hs hl
    by_cases h : log.any (fun p => p.1 == accountNumber) = true
    · simp [viewCustomerTransactionHistory, printHistory, bind, Run.bind, put, getSys,
        readInt, readIntLoop, invoke, hacc, hpw, hm, hs, hl, scanLog_logFields _ _ hint,
        historyClosing, h, pure]
    · simp [viewCustomerTransactionHistory, printHistory, bind, Run.bind, put, getSys,
        readInt, readIntLoop, invoke, hacc, hpw, hm, hs, hl, scanLog_logFields _ _ hint,
        historyClosing, h, pure]

/-- Witness of C9: account 100 in the log `(100, 100) (150, -20) (100, -50)`. -/
theorem history_is_linear_filter_witness :
    viewTransactionHistory Spec.backend 0
        (typed "100\n" { Spec.scenario with transaction := some [100, 100, 150, -20, 100, -50] })
      = .returned ()
        { cin := ['\n']
          cout := [.str "\n--- Transaction History ---\n\n", .str "Enter Account Number: ",
            .str "\nTransaction History for Account ", .int 100, .str ":\n\n",
            .str "Deposit: +", .int 100, .str "\n", .str "Withdrawal: ", .int (-50), .str "\n"]
          calls := []
          sys := { Spec.scenario with transaction := some [100, 100, 150, -20, 100, -50] } } :=
  (history_is_linear_filter Spec.backend
    (typed "100\n" { Spec.scenario with transaction := some [100, 100, 150, -20, 100, -50] })
    0 100 [(100, 100), (150, -20), (100, -50)] ['\n'] [] (by decide) (by decide)
    (by decide)).1.trans
    (by simp [typed, historyLines, historyLine, historyClosing])

/-- C8: the customer views are gated by credential verification.  When `match` is
false for the entered account number and password, `viewAccountDetails` and
`viewCustomerTransactionHistory` print their prompts and the invalid-credentials
error and return, having invoked `match` only; the printed text is the same for any
second state of the stores and the log in which `match` is false as well, so nothing
of an account or a transaction is disclosed. -/
theorem customer_views_gated (B : Backend S P) (w w2 : World S) (amount0 amount2 : Int)
    (accountNumber password : Int) (r1 r2 : List Char) (e1 e2 : List Out)
    (hacc : entry (fun _ => false) askNumber w.cin = .accepted accountNumber r1 e1)
    (hpw : entry (fun _ => false) askNumber r1 = .accepted password r2 e2)
    (hno : B.match_ w.sys accountNumber password = false)
    (hcin : w2.cin = w.cin) (hcout : w2.cout = w.cout)
    (hno2 : B.match_ w2.sys accountNumber password = false) :
    viewAccountDetails B w = .returned ()
      { w with
        cin := r2
        cout := w.cout ++ [.str "\n--- View Account Details ---\n\n",
            .str "Enter Account Number: "] ++ e1 ++ [.str "Enter Password: "] ++ e2
          ++ [.str "\nError: Invalid account number or password!\n"]
        calls := w.calls ++ [.match_ accountNumber password] } ∧
    viewCustomerTransactionHistory B amount0 w = .returned ()
      { w with
        cin := r2
        cout := w.cout ++ [.str "\n--- Transaction History ---\n\n",
            .str "Enter Account Number: "] ++ e1 ++ [.str "Enter Password: "] ++ e2
          ++ [.str "\nError: Invalid account number or password!\n"]
        calls := w.calls ++ [.match_ accountNumber password] } ∧
    (viewAccountDetails B w2).world.cout = (viewAccountDetails B w).world.cout ∧
    (viewCustomerTransactionHistory B amount2 w2).world.cout
      = (viewCustomerTransactionHistory B amount0 w).world.cout := by
  simp only [askNumber] at hacc hpw
  have hacc2 := hacc
  rw [← hcin] at hacc2
  refine ⟨?_, ?_, ?_, ?_⟩ <;>
  simp [viewAccountDetails, viewCustomerTransactionHistory, bind, Run.bind, put, getSys,
    readInt, readIntLoop, invoke, hacc, hacc2, hpw, hno, hno2, hcout, Outcome.world]

/-- Witness of C8: a wrong password for account 100, against the scenario of spec §8
and against an empty bank. -/
theorem customer_views_gated_witness :
    (viewAccountDetails Spec.backend (typed "100\n9999\n" Spec.empty)).world.cout
      = (viewAccountDetails Spec.backend (typed "100\n9999\n" Spec.scenario)).world.cout :=
  (customer_views_gated Spec.backend (typed "100\n9999\n" Spec.scenario)
    (typed "100\n9999\n" Spec.empty) 0 0 100 9999 ['\n', '9', '9', '9', '9', '\n'] ['\n'] [] []
    (by decide) (by decide) (by decide) rfl rfl (by decide)).2.2.1

/-! ### The ordered tree (spec model) -/

namespace Spec

/-- Attaching a leaf adds exactly that record. -/
theorem mem_inorder_attach_iff (t : BST_Node) (x a : Account) :
    a ∈ inorder (attach t x) ↔ a ∈ inorder t ∨ a = x := by
  induction t with
  | nullptr => simp [attach, inorder]
  | node l d r ihl ihr =>
    unfold attach
    split
    · simp only [inorder, List.mem_append, List.mem_cons, ihl]
      tauto
    · simp only [inorder, List.mem_append, List.mem_cons, ihr]
      tauto

/-- What `find` returns is a record of the tree. -/
theorem find_mem (t : BST_Node) (k : Int) (d : Account) :
    find t k = some d → d ∈ inorder t := by
  induction t with
  | nullptr => simp [find]
  | node l x r ihl ihr =>
    unfold find
    split
    · intro h; cases h; simp [inorder]
    · split
      · intro h; simp [inorder, ihl h]
      · intro h; simp [inorder, ihr h]

/-- What `find` returns carries the key that was looked up. -/
theorem find_key (t : BST_Node) (k : Int) (d : Account) :
    find t k = some d → d.account_number = k := by
  induction t with
  | nullptr => simp [find]
  | node l x r ihl ihr =>
    unfold find
    split
    · intro h; cases h; simp_all
    · split
      · exact ihl
      · exact ihr

/-- Attaching a record whose key `find` does not find keeps the ordering invariant. -/
theorem ordered_attach (t : BST_Node) (x : Account) (h : Ordered t)
    (hx : find t x.account_number = none) : Ordered (attach t x) := by
  induction t with
  | nullptr => simp [attach, Ordered, inorder]
  | node l d r ihl ihr =>
    obtain ⟨hl, hr, hld, hdr⟩ := h
    unfold find at hx
    split at hx
    · cases hx
    · rename_i hne
      split at hx
      · rename_i hlt
        simp only [attach, hlt, if_true, Ordered]
        refine ⟨ihl hl hx, hr, ?_, hdr⟩
        intro a ha
        rcases (mem_inorder_attach_iff _ _ _).mp ha with ha | rfl
        · exact hld a ha
        · exact hlt
      · rename_i hlt
        simp only [attach, hlt, if_false, Ordered]
        refine ⟨hl, ihr hr hx, hld, ?_⟩
        intro a ha
        rcases (mem_inorder_attach_iff _ _ _).mp ha with ha | rfl
        · exact hdr a ha
        · omega

/-- An insertion keeps the ordering invariant. -/
theorem ordered_insert (t : BST_Node) (x : Account) (h : Ordered t) :
    Ordered (insert t x) := by
  unfold insert
  split
  · exact h
  · rename_i hx
    exact ordered_attach t x h hx

/-- A tree built by insertions satisfies the ordering invariant. -/
theorem ordered_foldl_insert (l : List Account) :
    ∀ t, Ordered t → Ordered (l.foldl insert t) := by
  induction l with
  | nil => intro t h; exact h
  | cons x xs ih => intro t h; exact ih _ (ordered_insert t x h)

/-- The tree `load_Server` builds satisfies the ordering invariant. -/
theorem ordered_load_Server (b : Bank) : Ordered (load_Server b).Root :=
  ordered_foldl_insert _ _ (by simp [Ordered])

/-- In an ordered tree `find` returns exactly the record of the in-order list that
carries the key. -/
theorem find_iff_mem (t : BST_Node) (h : Ordered t) (k : Int) (d : Account) :
    find t k = some d ↔ d ∈ inorder t ∧ d.account_number = k := by
  constructor
  · intro hf
    exact ⟨find_mem _ _ _ hf, find_key _ _ _ hf⟩
  · induction t with
    | nullptr => simp [inorder]
    | node l x r ihl ihr =>
      obtain ⟨hl, hr, hlx, hxr⟩ := h
      rintro ⟨hm, hk⟩
      simp only [inorder, List.mem_append, List.mem_cons] at hm
      unfold find
      rcases hm with hm | rfl | hm
      · have := hlx d hm
        have hne : ¬ k = x.account_number := by omega
        have hlt : k < x.account_number := by omega
        simp only [hne, hlt, if_false, if_true]
        exact ihl hl ⟨hm, hk⟩
      · simp [hk]
      · have := hxr d hm
        have hne : ¬ k = x.account_number := by omega
        have hlt : ¬ k < x.account_number := by omega
        simp only [hne, hlt, if_false]
        exact ihr hr ⟨hm, hk⟩

/-- Two ordered trees with the same in-order list answer every `find` alike. -/
theorem find_congr (t1 t2 : BST_Node) (h1 : Ordered t1) (h2 : Ordered t2)
    (h : inorder t1 = inorder t2) (k : Int) : find t1 k = find t2 k := by
  cases hf : find t1 k with
  | some d =>
    have := (find_iff_mem t1 h1 k d).mp hf
    rw [h] at this
    exact ((find_iff_mem t2 h2 k d).mpr this).symm
  | none =>
    cases hg : find t2 k with
    | none => rfl
    | some d =>
      have := (find_iff_mem t2 h2 k d).mp hg
      rw [← h] at this
      rw [(find_iff_mem t1 h1 k d).mpr this] at hf
      cases hf

/-- In an ordered tree a key belongs to one record only. -/
theorem eq_of_key_eq (t : BST_Node) (h : Ordered t) (a b : Account)
    (ha : a ∈ inorder t) (hb : b ∈ inorder t)
    (hk : a.account_number = b.account_number) : a = b := by
  have h1 := (find_iff_mem t h b.account_number a).mpr ⟨ha, hk⟩
  have h2 := (find_iff_mem t h b.account_number b).mpr ⟨hb, rfl⟩
  rw [h1] at h2
  exact Option.some.inj h2

/-- A key larger than every key of the tree is not found in it. -/
theorem find_eq_none_of_lt (t : BST_Node) (k : Int)
    (h : ∀ a ∈ inorder t, a.account_number < k) : find t k = none := by
  cases hf : find t k with
  | none => rfl
  | some d =>
    have h1 := h d (find_mem _ _ _ hf)
    have h2 := find_key _ _ _ hf
    omega

/-- A record whose key is larger than every key of the tree is attached at the far
right. -/
theorem inorder_attach_of_lt (t : BST_Node) (x : Account)
    (h : ∀ a ∈ inorder t, a.account_number < x.account_number) :
    inorder (attach t x) = inorder t ++ [x] := by
  induction t with
  | nullptr => simp [attach, inorder]
  | node l d r _ ihr =>
    have hd : d.account_number < x.account_number := h d (by simp [inorder])
    have hr := ihr (fun a ha => h a (by simp [inorder, ha]))
    have hnot : ¬ x.account_number < d.account_number := by omega
    simp [attach, hnot, inorder, hr]

/-- Inserting records in increasing key order keeps the in-order list. -/
theorem inorder_foldl_insert_sorted (l : List Account) :
    ∀ t : BST_Node,
      (inorder t ++ l).Pairwise (fun a b => a.account_number < b.account_number) →
      inorder (l.foldl insert t) = inorder t ++ l := by
  induction l with
  | nil => intro t _; simp
  | cons x xs ih =>
    intro t hp
    have hlt : ∀ a ∈ inorder t, a.account_number < x.account_number := by
      intro a ha
      rw [List.pairwise_append] at hp
      exact hp.2.2 a ha x (by simp)
    have hins : inorder (insert t x) = inorder t ++ [x] := by
      unfold insert
      rw [find_eq_none_of_lt t _ hlt]
      exact inorder_attach_of_lt t x hlt
    have := ih (insert t x) (by rw [hins]; simpa using hp)
    simp only [List.foldl_cons]
    rw [this, hins]
    simp

/-- The in-order list of an ordered tree is strictly increasing in the key. -/
theorem pairwise_inorder (t : BST_Node) (h : Ordered t) :
    (inorder t).Pairwise (fun a b => a.account_number < b.account_number) := by
  induction t with
  | nullptr => simp [inorder]
  | node l d r ihl ihr =>
    obtain ⟨hl, hr, hld, hdr⟩ := h
    simp only [inorder]
    rw [List.pairwise_append]
    refine ⟨ihl hl, ?_, ?_⟩
    · rw [List.pairwise_cons]
      exact ⟨hdr, ihr hr⟩
    · intro a ha b hb
      rcases List.mem_cons.mp hb with rfl | hb
      · exact hld a ha
      · exact lt_trans (hld a ha) (hdr b hb)

/-- Persisting an ordered tree and reloading the records answers every `find` as the
tree did. -/
theorem find_reload (b : Bank) (h : Ordered b.Root) (k : Int) :
    find (load_Server (update_server b)).Root k = find b.Root k := by
  apply find_congr _ _ (ordered_load_Server _) h
  have := inorder_foldl_insert_sorted (inorder b.Root) .nullptr
    (by simpa [inorder] using pairwise_inorder b.Root h)
  simpa [load_Server, update_server, inorder] using this

/-- The minimum of a non-empty tree exists. -/
theorem minimum_node (l : BST_Node) (d : Account) (r : BST_Node) :
    ∃ m, minimum (.node l d r) = some m := by
  induction l generalizing d r with
  | nullptr => exact ⟨d, rfl⟩
  | node ll ld lr ihl _ =>
    obtain ⟨m, hm⟩ := ihl ld lr
    exact ⟨m, by simpa [minimum] using hm⟩

/-- The minimum is a record of the tree. -/
theorem minimum_mem (t : BST_Node) (m : Account) (h : minimum t = some m) :
    m ∈ inorder t := by
  induction t with
  | nullptr => simp [minimum] at h
  | node l d r ihl _ =>
    cases l with
    | nullptr =>
      simp only [minimum, Option.some.injEq] at h
      simp [inorder, h]
    | node ll ld lr =>
      simp only [minimum] at h
      have := ihl h
      simp only [inorder, List.mem_append, List.mem_cons] at this ⊢
      exact Or.inl this

/-- In an ordered tree no key is below the minimum's. -/
theorem minimum_le (t : BST_Node) (ht : Ordered t) (m : Account) (h : minimum t = some m) :
    ∀ a ∈ inorder t, m.account_number ≤ a.account_number := by
  induction t with
  | nullptr => simp [minimum] at h
  | node l d r ihl _ =>
    obtain ⟨hl, hr, hld, hdr⟩ := ht
    cases l with
    | nullptr =>
      simp only [minimum, Option.some.injEq] at h
      subst h
      intro a ha
      simp only [inorder, List.nil_append, List.mem_cons] at ha
      rcases ha with rfl | ha
      · exact le_refl _
      · exact le_of_lt (hdr a ha)
    | node ll ld lr =>
      simp only [minimum] at h
      have hmin := ihl hl h
      have hm := minimum_mem _ _ h
      intro a ha
      simp only [inorder, List.mem_append, List.mem_cons] at ha
      rcases ha with ha | rfl | ha
      · exact hmin a (by simpa [inorder] using ha)
      · exact le_of_lt (hld m hm)
      · exact le_of_lt (lt_trans (hld m hm) (hdr a ha))

/-- Deleting the key of a node with two children puts the minimum of the right
subtree in its place and deletes that minimum from the right subtree. -/
theorem delete_two_children (ll : BST_Node) (ld : Account) (lr : BST_Node) (d : Account)
    (rl : BST_Node) (rd : Account) (rr : BST_Node) (k : Int) (m : Account)
    (h1 : ¬ k < d.account_number) (h2 : ¬ d.account_number < k)
    (hm : minimum (.node rl rd rr) = some m) :
    delete_Account (.node (.node ll ld lr) d (.node rl rd rr)) k
      = .node (.node ll ld lr) m (delete_Account (.node rl rd rr) m.account_number) := by
  rw [delete_Account]
  · simp only [h1, h2, if_false, hm]
  · intro h; cases h
  · intro h; cases h

/-- Deleting a key from an ordered tree removes exactly the record with that key. -/
theorem mem_inorder_delete (t : BST_Node) (h : Ordered t) :
    ∀ (k : Int) (a : Account),
      a ∈ inorder (delete_Account t k) ↔ a ∈ inorder t ∧ a.account_number ≠ k := by
  induction t with
  | nullptr => intro k a; simp [delete_Account, inorder]
  | node l d r ihl ihr =>
    obtain ⟨hl, hr, hld, hdr⟩ := h
    intro k a
    by_cases h1 : k < d.account_number
    · simp only [delete_Account, h1, if_true, inorder, List.mem_append, List.mem_cons, ihl hl]
      constructor
      · rintro (⟨ha, hne⟩ | rfl | ha)
        · exact ⟨Or.inl ha, hne⟩
        · exact ⟨Or.inr (Or.inl rfl), by omega⟩
        · exact ⟨Or.inr (Or.inr ha), by have := hdr a ha; omega⟩
      · rintro ⟨ha | rfl | ha, hne⟩
        · exact Or.inl ⟨ha, hne⟩
        · exact Or.inr (Or.inl rfl)
        · exact Or.inr (Or.inr ha)
    · by_cases h2 : d.account_number < k
      · simp only [delete_Account, h1, h2, if_true, if_false, inorder, List.mem_append,
          List.mem_cons, ihr hr]
        constructor
        · rintro (ha | rfl | ⟨ha, hne⟩)
          · exact ⟨Or.inl ha, by have := hld a ha; omega⟩
          · exact ⟨Or.inr (Or.inl rfl), by omega⟩
          · exact ⟨Or.inr (Or.inr ha), hne⟩
        · rintro ⟨ha | rfl | ha, hne⟩
          · exact Or.inl ha
          · exact Or.inr (Or.inl rfl)
          · exact Or.inr (Or.inr ⟨ha, hne⟩)
      · have hk : k = d.account_number := by omega
        cases l with
        | nullptr =>
          simp only [delete_Account, h1, h2, if_false, inorder, List.nil_append, List.mem_cons]
          constructor
          · intro ha
            exact ⟨Or.inr ha, by have := hdr a ha; omega⟩
          · rintro ⟨rfl | ha, hne⟩
            · exact absurd hk.symm hne
            · exact ha
        | node ll ld lr =>
          cases r with
          | nullptr =>
            simp only [delete_Account, h1, h2, if_false, inorder, List.mem_append,
              List.mem_cons, List.append_nil]
            constructor
            · intro ha
              have hmem : a ∈ inorder (.node ll ld lr) := by
                simpa [inorder] using ha
              exact ⟨Or.inl ha, by have := hld a hmem; omega⟩
            · rintro ⟨ha | rfl | ha, hne⟩
              · exact ha
              · exact absurd hk.symm hne
              · simp at ha
          | node rl rd rr =>
            obtain ⟨m, hm⟩ := minimum_node rl rd rr
            have hmr := minimum_mem _ _ hm
            have hmle := minimum_le _ hr _ hm
            have hrec := ihr hr m.account_number a
            rw [delete_two_children _ _ _ _ _ _ _ _ _ h1 h2 hm]
            rw [inorder, List.mem_append, List.mem_cons, hrec]
            simp only [inorder, List.mem_append, List.mem_cons]
            constructor
            · rintro (ha | rfl | ⟨ha, hne⟩)
              · have hmem : a ∈ inorder (.node ll ld lr) := by
                  simpa [inorder] using ha
                exact ⟨Or.inl ha, by have := hld a hmem; omega⟩
              · have : a ∈ inorder (.node rl rd rr) := hmr
                refine ⟨Or.inr (Or.inr (by simpa [inorder] using hmr)), ?_⟩
                have := hdr a hmr
                omega
              · have hmem : a ∈ inorder (.node rl rd rr) := by
                  simpa [inorder] using ha
                exact ⟨Or.inr (Or.inr ha), by have := hdr a hmem; omega⟩
            · rintro ⟨ha | rfl | ha, hne⟩
              · exact Or.inl ha
              · exact absurd hk.symm hne
              · have hmem : a ∈ inorder (.node rl rd rr) := by
                  simpa [inorder] using ha
                by_cases hkm : a.account_number = m.account_number
                · exact Or.inr (Or.inl (eq_of_key_eq _ hr a m hmem hmr hkm))
                · exact Or.inr (Or.inr ⟨ha, hkm⟩)

/-- Deleting a key keeps the ordering invariant, also when the node has two children
and is replaced by its in-order successor. -/
theorem ordered_delete (t : BST_Node) (h : Ordered t) :
    ∀ k : Int, Ordered (delete_Account t k) := by
  induction t with
  | nullptr => intro k; simp [delete_Account, Ordered]
  | node l d r ihl ihr =>
    have hall := h
    obtain ⟨hl, hr, hld, hdr⟩ := h
    intro k
    by_cases h1 : k < d.account_number
    · simp only [delete_Account, h1, if_true, Ordered]
      exact ⟨ihl hl k, hr, fun a ha => hld a ((mem_inorder_delete l hl k a).mp ha).1, hdr⟩
    · by_cases h2 : d.account_number < k
      · simp only [delete_Account, h1, h2, if_true, if_false, Ordered]
        exact ⟨hl, ihr hr k, hld, fun a ha => hdr a ((mem_inorder_delete r hr k a).mp ha).1⟩
      · cases l with
        | nullptr =>
          simp only [delete_Account, h1, h2, if_false]
          exact hr
        | node ll ld lr =>
          cases r with
          | nullptr =>
            simp only [delete_Account, h1, h2, if_false]
            exact hl
          | node rl rd rr =>
            obtain ⟨m, hm⟩ := minimum_node rl rd rr
            have hmr := minimum_mem _ _ hm
            have hmle := minimum_le _ hr _ hm
            rw [delete_two_children _ _ _ _ _ _ _ _ _ h1 h2 hm]
            rw [Ordered]
            refine ⟨hl, ihr hr _, ?_, ?_⟩
            · intro a ha
              exact lt_trans (hld a ha) (hdr m hmr)
            · intro a ha
              have := (mem_inorder_delete _ hr m.account_number a).mp ha
              have := hmle a this.1
              omega

/-- After deleting a key from an ordered tree, `find` reports that key as not found
and finds every other key with its record unchanged. -/
theorem find_delete (t : BST_Node) (h : Ordered t) (k k1 : Int) :
    find (delete_Account t k) k1 = if k1 = k then none else find t k1 := by
  have ho := ordered_delete t h k
  cases hf : find (delete_Account t k) k1 with
  | some d =>
    have h1 := (find_iff_mem _ ho k1 d).mp hf
    have h2 := (mem_inorder_delete t h k d).mp h1.1
    have hne : ¬ k1 = k := by
      rw [← h1.2]; exact h2.2
    simp only [hne, if_false]
    exact ((find_iff_mem t h k1 d).mpr ⟨h2.1, h1.2⟩).symm
  | none =>
    split
    · rfl
    · rename_i hne
      cases hg : find t k1 with
      | none => rfl
      | some d =>
        have h1 := (find_iff_mem t h k1 d).mp hg
        have h2 := (mem_inorder_delete t h k d).mpr ⟨h1.1, by rw [h1.2]; exact hne⟩
        rw [(find_iff_mem _ ho k1 d).mpr ⟨h2, h1.2⟩] at hf
        cases hf

/-- After an assignment through the pointer of a node found under `k`, `find` returns
the assigned fields, provided the key field is kept. -/
theorem find_assignNode (t : BST_Node) (k : Int) (d a : Account)
    (h : find t k = some d) (ha : a.account_number = k) :
    find (assignNode t k a) k = some a := by
  induction t with
  | nullptr => simp [find] at h
  | node l x r ihl ihr =>
    unfold find at h
    unfold assignNode
    split at h
    · rename_i hk
      simp [← hk, find, ha]
    · rename_i hk
      split at h
      · rename_i hlt
        simp [hk, hlt, find, ihl h]
      · rename_i hlt
        simp [hk, hlt, find, ihr h]

/-- An assignment puts the assigned fields in the place of the record found. -/
theorem mem_inorder_assignNode (t : BST_Node) (k : Int) (a b : Account) :
    b ∈ inorder (assignNode t k a) → b ∈ inorder t ∨ b = a := by
  induction t with
  | nullptr => simp [assignNode, inorder]
  | node l x r ihl ihr =>
    unfold assignNode
    split
    · simp only [inorder, List.mem_append, List.mem_cons]
      tauto
    · split
      · simp only [inorder, List.mem_append, List.mem_cons]
        rintro (hb | hb | hb)
        · rcases ihl hb with hb | hb
          · exact Or.inl (Or.inl hb)
          · exact Or.inr hb
        · exact Or.inl (Or.inr (Or.inl hb))
        · exact Or.inl (Or.inr (Or.inr hb))
      · simp only [inorder, List.mem_append, List.mem_cons]
        rintro (hb | hb | hb)
        · exact Or.inl (Or.inl hb)
        · exact Or.inl (Or.inr (Or.inl hb))
        · rcases ihr hb with hb | hb
          · exact Or.inl (Or.inr (Or.inr hb))
          · exact Or.inr hb

/-- An assignment that keeps the key field keeps the ordering invariant. -/
theorem ordered_assignNode (t : BST_Node) (k : Int) (a : Account) (h : Ordered t)
    (ha : a.account_number = k) : Ordered (assignNode t k a) := by
  induction t with
  | nullptr => simp [assignNode, Ordered]
  | node l x r ihl ihr =>
    obtain ⟨hl, hr, hlx, hxr⟩ := h
    unfold assignNode
    split
    · rename_i hk
      rw [Ordered]
      exact ⟨hl, hr, fun b hb => by have := hlx b hb; omega,
        fun b hb => by have := hxr b hb; omega⟩
    · split
      · rename_i hlt
        rw [Ordered]
        refine ⟨ihl hl, hr, ?_, hxr⟩
        intro b hb
        rcases mem_inorder_assignNode _ _ _ _ hb with hb | rfl
        · exact hlx b hb
        · omega
      · rename_i hne hlt
        rw [Ordered]
        refine ⟨hl, ihr hr, hlx, ?_⟩
        intro b hb
        rcases mem_inorder_assignNode _ _ _ _ hb with hb | rfl
        · exact hxr b hb
        · omega

/-- Reloading a reloaded store changes nothing. -/
theorem load_Server_idem (b : Bank) : load_Server (load_Server b) = load_Server b := rfl

end Spec

/-! ### Balances stay non-negative (spec model) -/

namespace Spec

end Spec

namespace Spec

end Spec

/-- C7: a password edit updates both stores to the same value.  For an account found in
the reloaded store and menu choice 3 with new password `p`, `editAccount` returns
after `delete_password` followed by `add` and `update_server`; the record found under
the account number then carries password `p`, in the tree, in the account file and
after the next reload,
the credential entry of the account number is `p`, `match(accountNumber, p)` is true
and `match(accountNumber, q)` is false for every `q ≠ p`. -/
theorem editAccount_password_updates_both (w : World Spec.Bank)
    (accountNumber newPassword : Int) (d : Account) (c : Char) (r1 r2 r3 : List Char)
    (e1 e2 e3 : List Out)
    (hacc : entry (fun _ => false) askNumber w.cin = .accepted accountNumber r1 e1)
    (hfound : Spec.find (Spec.load_Server w.sys).Root accountNumber = some d)
    (hchoice : entry (fun x => decide (x < 1) || decide (x > 4)) askChoice r1
      = .accepted 3 (c :: r2) e2)
    (hpw : entry (fun _ => false) askNumber r2 = .accepted newPassword r3 e3) :
    ∃ w1, editAccount Spec.backend w = .returned () w1 ∧
      w1.calls = w.calls ++ [.load_Server, .search accountNumber,
        .delete_password accountNumber, .add accountNumber newPassword, .update_server] ∧
      Spec.find w1.sys.Root accountNumber = some { d with password := newPassword } ∧
      { d with password := newPassword } ∈ w1.sys.server ∧
      Spec.find (Spec.load_Server w1.sys).Root accountNumber
        = some { d with password := newPassword } ∧
      w1.sys.table.lookup accountNumber = some newPassword ∧
      Spec.match_ w1.sys accountNumber newPassword = true ∧
      ∀ q, q ≠ newPassword → Spec.match_ w1.sys accountNumber q = false := by
  simp only [askNumber, askChoice] at hacc hchoice hpw
  have hk := Spec.find_key _ _ _ hfound
  have hfound1 : Spec.find (List.foldl Spec.insert Spec.BST_Node.nullptr w.sys.server)
      accountNumber = some d := hfound
  have hf := Spec.find_assignNode _ _ _ { d with password := newPassword } hfound1 hk
  have hsys : (editAccount Spec.backend w).world.sys
      = Spec.update_server (Spec.add accountNumber newPassword
          (Spec.delete_password accountNumber
            { Spec.load_Server w.sys with
              Root := Spec.assignNode (Spec.load_Server w.sys).Root accountNumber
                { d with password := newPassword } })) := by
    simp [editAccount, bind, Run.bind, put, getSys, readInt, readIntLoop, invoke, store,
      ignoreOne, hacc, hchoice, hpw, Spec.backend, hk, Spec.load_Server, hfound1, pure,
      Outcome.world, Spec.node]
  refine ⟨(editAccount Spec.backend w).world, ?_, ?_, ?_, ?_, ?_, ?_, ?_, ?_⟩
  · simp [editAccount, bind, Run.bind, put, getSys, readInt, readIntLoop, invoke, store,
      ignoreOne, hacc, hchoice, hpw, Spec.backend, hk, Spec.load_Server, hfound1, pure,
      Outcome.world]
  · simp [editAccount, bind, Run.bind, put, getSys, readInt, readIntLoop, invoke, store,
      ignoreOne, hacc, hchoice, hpw, Spec.backend, hk, Spec.load_Server, hfound1, pure,
      Outcome.world]
  · rw [hsys]; exact hf
  · rw [hsys]; exact Spec.find_mem _ _ _ hf
  · rw [hsys]
    exact (Spec.find_reload (Spec.add accountNumber newPassword
      (Spec.delete_password accountNumber
        { Spec.load_Server w.sys with
          Root := Spec.assignNode (Spec.load_Server w.sys).Root accountNumber
            { d with password := newPassword } }))
      (Spec.ordered_assignNode _ accountNumber _ (Spec.ordered_load_Server w.sys) hk)
      accountNumber).trans hf
  · rw [hsys]; simp [Spec.update_server, Spec.add, List.lookup]
  · rw [hsys]; simp [Spec.update_server, Spec.add, Spec.match_, List.lookup]
  · intro q hq
    rw [hsys]; simp [Spec.update_server, Spec.add, Spec.match_, List.lookup]
    exact fun h => hq h.symm

/-- Witness of C7: account 100 of the scenario of spec §8 gets password 4321. -/
theorem editAccount_password_updates_both_witness :
    ∃ w1, editAccount Spec.backend (typed "100\n3\n4321\n" Spec.scenario) = .returned () w1 ∧
      w1.calls = [] ++ [.load_Server, .search 100,
        .delete_password 100, .add 100 4321, .update_server] ∧
      Spec.find w1.sys.Root 100 = some ⟨"Ann", "1 High St", 100, 4321, 600⟩ ∧
      (⟨"Ann", "1 High St", 100, 4321, 600⟩ : Account) ∈ w1.sys.server ∧
      Spec.find (Spec.load_Server w1.sys).Root 100
        = some ⟨"Ann", "1 High St", 100, 4321, 600⟩ ∧
      w1.sys.table.lookup 100 = some 4321 ∧
      Spec.match_ w1.sys 100 4321 = true ∧
      ∀ q, q ≠ 4321 → Spec.match_ w1.sys 100 q = false :=
  editAccount_password_updates_both (typed "100\n3\n4321\n" Spec.scenario) 100 4321
    ⟨"Ann", "1 High St", 100, 1111, 600⟩ '\n' "\n3\n4321\n".toList "4321\n".toList ['\n']
    [] [] [] (by decide) (by decide) (by decide) (by decide)

/-! ### Insertions and deletions keep the store ordered (spec model) -/

namespace Spec

/-- Strictly increasing account numbers do not repeat. -/
theorem nodup_of_increasing (l : List Account)
    (h : l.Pairwise (fun a b => a.account_number < b.account_number)) :
    (l.map (fun a => a.account_number)).Nodup := by
  rw [List.Nodup, List.pairwise_map]
  exact h.imp (fun hab => ne_of_lt hab)

/-- The list "View All Accounts" shows is strictly increasing in the account number,
whatever the account file holds. -/
theorem pairwise_viewAllAccounts (b : Bank) :
    (viewAllAccounts b).Pairwise (fun a c => a.account_number < c.account_number) :=
  pairwise_inorder _ (ordered_load_Server b)

/-- A reload keeps the tree ordered and the file sorted. -/
theorem sorted_load_Server (b : Bank) (h : Sorted b) : Sorted (load_Server b) :=
  ⟨ordered_load_Server b, h.2⟩

/-- Persisting an ordered tree leaves a sorted file. -/
theorem sorted_update_server (b : Bank) (h : Ordered b.Root) : Sorted (update_server b) :=
  ⟨h, pairwise_inorder _ h⟩

/-- One run of `addAccount` or `deleteAccount` keeps the tree ordered and the file
sorted. -/
theorem sorted_step (f : AdminStep) (input : String) (b : Bank) (h : Sorted b) :
    Sorted (f.run backend (typed input b)).world.sys := by
  cases f with
  | addAccount =>
    rcases addAccount_cases backend (typed input b) with
      ⟨name, address, k, pw, bal, w1, -, -, -, -, -, -, -, -, -, hs⟩ | ⟨-, hs, -⟩ |
      ⟨k, -, hs⟩
    · simp only [AdminStep.run]
      rw [hs]
      exact sorted_update_server _ (ordered_insert _ _ (ordered_load_Server b))
    · simp only [AdminStep.run]
      rw [hs]
      exact h
    · simp only [AdminStep.run]
      rw [hs]
      exact sorted_load_Server b h
  | deleteAccount confirm0 =>
    rcases deleteAccount_cases backend confirm0 (typed input b) with
      ⟨k, account, -, -, hs⟩ | ⟨-, hs, -⟩ | ⟨k, -, hs⟩
    · simp only [AdminStep.run]
      rw [hs]
      exact sorted_update_server _ (ordered_delete _ (ordered_load_Server b) k)
    · simp only [AdminStep.run]
      rw [hs]
      exact h
    · simp only [AdminStep.run]
      rw [hs]
      exact sorted_load_Server b h

/-- A history of insertions and deletions keeps the tree ordered and the file sorted. -/
theorem sorted_history (steps : List (AdminStep × String)) :
    ∀ b, Sorted b → Sorted (history steps b) := by
  induction steps with
  | nil => intro b h; exact h
  | cons x xs ih =>
    intro b h
    obtain ⟨f, input⟩ := x
    exact ih _ (sorted_step f input b h)

/-- Reloading a sorted file lists exactly its records. -/
theorem viewAllAccounts_sorted (b : Bank) (h : Sorted b) : viewAllAccounts b = b.server := by
  have := inorder_foldl_insert_sorted b.server .nullptr (by simpa [inorder] using h.2)
  simpa [viewAllAccounts, load_Server, inorder] using this

end Spec

/-- C11: the in-order traversal that "View All Accounts" lists is strictly increasing.
For every history of `addAccount` and `deleteAccount` runs, on any typed input and
from any state of the stores, the account numbers of the list shown by
`t.load_Server(); t.printoinfo(t.Root)` are strictly increasing and none appears
twice.  Started from the empty stores, the list is exactly the content of the account
file, and the tree the last workflow left in memory satisfies the ordering invariant
as well. -/
theorem viewAllAccounts_strictly_increasing (steps : List (AdminStep × String))
    (b : Spec.Bank) :
    ((Spec.viewAllAccounts (Spec.history steps b)).map
      (fun a => a.account_number)).Pairwise (fun m n => m < n) ∧
    ((Spec.viewAllAccounts (Spec.history steps b)).map (fun a => a.account_number)).Nodup ∧
    Spec.viewAllAccounts (Spec.history steps Spec.empty)
      = (Spec.history steps Spec.empty).server ∧
    Spec.Ordered (Spec.history steps Spec.empty).Root := by
  have hs : Spec.Sorted (Spec.history steps Spec.empty) :=
    Spec.sorted_history steps _ (by simp [Spec.Sorted, Spec.empty, Spec.Ordered])
  refine ⟨?_, Spec.nodup_of_increasing _ (Spec.pairwise_viewAllAccounts _),
    Spec.viewAllAccounts_sorted _ hs, hs.1⟩
  rw [List.pairwise_map]
  exact Spec.pairwise_viewAllAccounts _

/-- C12: deleting a present key from an ordered store.  For a store whose tree
satisfies the ordering invariant and a key found in it, after
`t.Root = t.delete_Account(t.Root, key)` the search for the key reports not found,
every other key is found exactly as before, with the same record, and the ordering
invariant holds; when the node of the key has two children, it now carries the record
of its in-order successor, the minimum of the right subtree, which is deleted from
the right subtree. -/
theorem delete_Account_removes_only_the_key (b : Spec.Bank) (key : Int) (d : Account)
    (hord : Spec.Ordered b.Root) (hfound : Spec.find b.Root key = some d) :
    Spec.backend.search (Spec.backend.delete_Account key b) key = none ∧
    Spec.find (Spec.backend.delete_Account key b).Root key = none ∧
    (∀ k, k ≠ key →
      Spec.find (Spec.backend.delete_Account key b).Root k = Spec.find b.Root k) ∧
    Spec.Ordered (Spec.backend.delete_Account key b).Root ∧
    (∀ a, a ∈ Spec.inorder (Spec.backend.delete_Account key b).Root
      ↔ a ∈ Spec.inorder b.Root ∧ a ≠ d) ∧
    ∀ ll ld lr x rl rd rr, b.Root = .node (.node ll ld lr) x (.node rl rd rr) →
      x.account_number = key →
      ∃ m, Spec.minimum (.node rl rd rr) = some m ∧
        (∀ a ∈ Spec.inorder (.node rl rd rr), m.account_number ≤ a.account_number) ∧
        (Spec.backend.delete_Account key b).Root
          = .node (.node ll ld lr) m (Spec.delete_Account (.node rl rd rr) m.account_number) := by
  have hroot : (Spec.backend.delete_Account key b).Root = Spec.delete_Account b.Root key := rfl
  have hnone : Spec.find (Spec.delete_Account b.Root key) key = none := by
    rw [Spec.find_delete _ hord]; simp
  refine ⟨?_, ?_, ?_, ?_, ?_, ?_⟩
  · show (Spec.find (Spec.delete_Account b.Root key) key).map _ = none
    rw [hnone]; rfl
  · rw [hroot]; exact hnone
  · intro k hk
    rw [hroot, Spec.find_delete _ hord]; simp [hk]
  · rw [hroot]; exact Spec.ordered_delete _ hord key
  · intro a
    rw [hroot, Spec.mem_inorder_delete _ hord]
    constructor
    · rintro ⟨ha, hk⟩
      refine ⟨ha, ?_⟩
      intro hd
      exact hk (hd ▸ Spec.find_key _ _ _ hfound)
    · rintro ⟨ha, hd⟩
      refine ⟨ha, ?_⟩
      intro hk
      exact hd (Spec.eq_of_key_eq _ hord a d ha (Spec.find_mem _ _ _ hfound)
        (hk.trans (Spec.find_key _ _ _ hfound).symm))
  · intro ll ld lr x rl rd rr ht hx
    obtain ⟨m, hm⟩ := Spec.minimum_node rl rd rr
    have hordr : Spec.Ordered (.node rl rd rr) := by
      rw [ht] at hord
      exact hord.2.1
    refine ⟨m, hm, Spec.minimum_le _ hordr m hm, ?_⟩
    rw [hroot, ht]
    exact Spec.delete_two_children ll ld lr x rl rd rr key m (by omega) (by omega) hm

/-- Witness of C12: the accounts 100, 50 and 150 loaded in this order, so that 100 is
the root with two children; deleting 100 puts its successor 150 in its place. -/
theorem delete_Account_removes_only_the_key_witness :
    Spec.find (Spec.backend.delete_Account 100 (Spec.load_Server ⟨.nullptr,
      [⟨"Ann", "1 High St", 100, 1111, 600⟩, ⟨"Bea", "2 Low Rd", 50, 2222, 40⟩,
        ⟨"Cy", "3 Mid Ln", 150, 3333, 0⟩], [], none⟩)).Root 100 = none ∧
    (Spec.backend.delete_Account 100 (Spec.load_Server ⟨.nullptr,
      [⟨"Ann", "1 High St", 100, 1111, 600⟩, ⟨"Bea", "2 Low Rd", 50, 2222, 40⟩,
        ⟨"Cy", "3 Mid Ln", 150, 3333, 0⟩], [], none⟩)).Root
      = .node (.node .nullptr ⟨"Bea", "2 Low Rd", 50, 2222, 40⟩ .nullptr)
          ⟨"Cy", "3 Mid Ln", 150, 3333, 0⟩ .nullptr :=
  ⟨(delete_Account_removes_only_the_key (Spec.load_Server ⟨.nullptr,
      [⟨"Ann", "1 High St", 100, 1111, 600⟩, ⟨"Bea", "2 Low Rd", 50, 2222, 40⟩,
        ⟨"Cy", "3 Mid Ln", 150, 3333, 0⟩], [], none⟩)
      100 ⟨"Ann", "1 High St", 100, 1111, 600⟩
      (Spec.ordered_load_Server _) (by decide)).2.1, by decide⟩

/-! ### What `editAccount` writes -/

namespace Spec

/-- In the spec model a record assigned through the pointer of a found node is read
back through it, provided the assignment keeps the key. -/
theorem node_assign (b : Bank) (k : Int) (d a : Account) (h : find b.Root k = some d)
    (ha : a.account_number = k) : backend.node (backend.assign k a b) k = a := by
  simp [backend, node, find_assignNode _ _ _ _ h ha]

end Spec

/-- C13: `editAccount` never changes an account's number or balance.  For an account
found in the reloaded store and the accepted menu choice, which is 1, 2, 3 or 4: the
only write to the node is one assignment of a record that agrees with the record read
from the node in account number and balance, whatever input follows (a run that stays
in the prompt loop of the new password for ever writes nothing); with choice 1 the
record written differs from the one read in the name only, with choice 2 in the
address only, with choice 3 in the password only (the credential entry is replaced
too), each followed by `update_server`; with choice 4 the workflow returns without
any assignment and without `update_server`, the state being the reloaded store.
For stores in which a record assigned through the node pointer is read back through
it, and in which `update_server`, `delete_password` and `add` leave the node alone,
the record behind the pointer after `editAccount` therefore has the account number
and balance it had before, and with choice 1, 2 or 3 also the other two fields that
were not chosen, and with choice 4 all five. -/
theorem editAccount_keeps_number_and_balance (B : Backend S P) (w : World S)
    (accountNumber choice : Int) (account : P) (c : Char) (r1 r2 : List Char)
    (e1 e2 : List Out)
    (hacc : entry (fun _ => false) askNumber w.cin = .accepted accountNumber r1 e1)
    (hfound : B.search (B.load_Server w.sys) accountNumber = some account)
    (hchoice : entry (fun x => decide (x < 1) || decide (x > 4)) askChoice r1
      = .accepted choice (c :: r2) e2) :
    (choice = 1 ∨ choice = 2 ∨ choice = 3 ∨ choice = 4) ∧
    (∃ a : Account,
      a.account_number = (B.node (B.load_Server w.sys) account).account_number ∧
      a.balance = (B.node (B.load_Server w.sys) account).balance ∧
      ((editAccount B w).world.sys = B.load_Server w.sys ∨
        (editAccount B w).world.sys
          = B.update_server (B.assign account a (B.load_Server w.sys)) ∨
        ∃ newPassword, (editAccount B w).world.sys
          = B.update_server (B.add accountNumber newPassword
              (B.delete_password accountNumber
                (B.assign account a (B.load_Server w.sys)))))) ∧
    (choice = 1 → ∀ newName rest, getline r2 = some (newName, rest) →
      ∃ w1, editAccount B w = .returned () w1 ∧
        w1.calls = w.calls ++ [.load_Server, .search accountNumber, .update_server] ∧
        w1.sys = B.update_server (B.assign account
          ⟨String.mk newName,
            (B.node (B.load_Server w.sys) account).adress,
            (B.node (B.load_Server w.sys) account).account_number,
            (B.node (B.load_Server w.sys) account).password,
            (B.node (B.load_Server w.sys) account).balance⟩ (B.load_Server w.sys))) ∧
    (choice = 2 → ∀ newAddress rest, getline r2 = some (newAddress, rest) →
      ∃ w1, editAccount B w = .returned () w1 ∧
        w1.calls = w.calls ++ [.load_Server, .search accountNumber, .update_server] ∧
        w1.sys = B.update_server (B.assign account
          ⟨(B.node (B.load_Server w.sys) account).name,
            String.mk newAddress,
            (B.node (B.load_Server w.sys) account).account_number,
            (B.node (B.load_Server w.sys) account).password,
            (B.node (B.load_Server w.sys) account).balance⟩ (B.load_Server w.sys))) ∧
    (choice = 3 → ∀ newPassword r3 e3,
      entry (fun _ => false) askNumber r2 = .accepted newPassword r3 e3 →
      ∃ w1, editAccount B w = .returned () w1 ∧
        w1.calls = w.calls ++ [.load_Server, .search accountNumber,
          .delete_password accountNumber, .add accountNumber newPassword, .update_server] ∧
        w1.sys = B.update_server (B.add accountNumber newPassword
          (B.delete_password accountNumber (B.assign account
            ⟨(B.node (B.load_Server w.sys) account).name,
              (B.node (B.load_Server w.sys) account).adress,
              (B.node (B.load_Server w.sys) account).account_number,
              newPassword,
              (B.node (B.load_Server w.sys) account).balance⟩ (B.load_Server w.sys))))) ∧
    (choice = 4 →
      ∃ w1, editAccount B w = .returned () w1 ∧
        w1.calls = w.calls ++ [.load_Server, .search accountNumber] ∧
        w1.sys = B.load_Server w.sys) ∧
    ((∀ a : Account,
        a.account_number = (B.node (B.load_Server w.sys) account).account_number →
        B.node (B.assign account a (B.load_Server w.sys)) account = a) →
      (∀ s, B.node (B.update_server s) account = B.node s account) →
      (∀ s, B.node (B.delete_password accountNumber s) account = B.node s account) →
      (∀ p s, B.node (B.add accountNumber p s) account = B.node s account) →
      (B.node (editAccount B w).world.sys account).account_number
        = (B.node (B.load_Server w.sys) account).account_number ∧
      (B.node (editAccount B w).world.sys account).balance
        = (B.node (B.load_Server w.sys) account).balance ∧
      (choice = 1 →
        (B.node (editAccount B w).world.sys account).adress
          = (B.node (B.load_Server w.sys) account).adress ∧
        (B.node (editAccount B w).world.sys account).password
          = (B.node (B.load_Server w.sys) account).password) ∧
      (choice = 2 →
        (B.node (editAccount B w).world.sys account).name
          = (B.node (B.load_Server w.sys) account).name ∧
        (B.node (editAccount B w).world.sys account).password
          = (B.node (B.load_Server w.sys) account).password) ∧
      (choice = 3 →
        (B.node (editAccount B w).world.sys account).name
          = (B.node (B.load_Server w.sys) account).name ∧
        (B.node (editAccount B w).world.sys account).adress
          = (B.node (B.load_Server w.sys) account).adress) ∧
      (choice = 4 →
        B.node (editAccount B w).world.sys account
          = B.node (B.load_Server w.sys) account)) := by
  simp only [askNumber, askChoice] at hacc hchoice ⊢
  have hrange := promptLoop_accepted _ _ _ _ _ _ _ _ hchoice
  simp only [Bool.or_eq_false_iff, decide_eq_false_iff_not, not_lt] at hrange
  have hcases : choice = 1 ∨ choice = 2 ∨ choice = 3 ∨ choice = 4 := by omega
  have h1 : choice = 1 → ∀ newName rest, getline r2 = some (newName, rest) →
      (editAccount B w).world.sys = B.update_server (B.assign account
        { B.node (B.load_Server w.sys) account with name := String.mk newName }
        (B.load_Server w.sys)) := by
    intro hc newName rest hl
    subst hc
    simp [editAccount, bind, Run.bind, put, invoke, getSys, readInt, readIntLoop,
      ignoreOne, readLine, store, Outcome.world, hacc, hfound, hchoice, hl]
  have h2 : choice = 2 → ∀ newAddress rest, getline r2 = some (newAddress, rest) →
      (editAccount B w).world.sys = B.update_server (B.assign account
        { B.node (B.load_Server w.sys) account with adress := String.mk newAddress }
        (B.load_Server w.sys)) := by
    intro hc newAddress rest hl
    subst hc
    simp [editAccount, bind, Run.bind, put, invoke, getSys, readInt, readIntLoop,
      ignoreOne, readLine, store, Outcome.world, hacc, hfound, hchoice, hl]
  have h3 : choice = 3 → ∀ newPassword r3 e3,
      entry (fun _ => false) "Invalid input. Please enter a number: " r2
        = .accepted newPassword r3 e3 →
      (editAccount B w).world.sys = B.update_server (B.add accountNumber newPassword
        (B.delete_password accountNumber (B.assign account
          { B.node (B.load_Server w.sys) account with password := newPassword }
          (B.load_Server w.sys)))) := by
    intro hc newPassword r3 e3 hp
    subst hc
    simp [editAccount, bind, Run.bind, put, invoke, getSys, readInt, readIntLoop,
      ignoreOne, readLine, store, Outcome.world, hacc, hfound, hchoice, hp]
  have h4 : choice = 4 → (editAccount B w).world.sys = B.load_Server w.sys := by
    intro hc
    subst hc
    simp [editAccount, bind, Run.bind, put, invoke, getSys, readInt, readIntLoop,
      ignoreOne, readLine, store, Outcome.world, hacc, hfound, hchoice]
  have hshape : (editAccount B w).world.sys = B.load_Server w.sys
      ∨ (choice = 1 ∧ ∃ newName, (editAccount B w).world.sys
          = B.update_server (B.assign account
            { B.node (B.load_Server w.sys) account with name := newName }
            (B.load_Server w.sys)))
      ∨ (choice = 2 ∧ ∃ newAddress, (editAccount B w).world.sys
          = B.update_server (B.assign account
            { B.node (B.load_Server w.sys) account with adress := newAddress }
            (B.load_Server w.sys)))
      ∨ (choice = 3 ∧ ∃ newPassword, (editAccount B w).world.sys
          = B.update_server (B.add accountNumber newPassword
            (B.delete_password accountNumber (B.assign account
              { B.node (B.load_Server w.sys) account with password := newPassword }
              (B.load_Server w.sys))))) := by
    rcases hcases with hc | hc | hc | hc
    · refine Or.inr (Or.inl ⟨hc, String.mk (lineOf r2).1, ?_⟩)
      subst hc
      simp [editAccount, bind, Run.bind, put, invoke, getSys, readInt, readIntLoop,
        ignoreOne_eq, readLine_eq, store, Outcome.world, hacc, hfound, hchoice]
    · refine Or.inr (Or.inr (Or.inl ⟨hc, String.mk (lineOf r2).1, ?_⟩))
      subst hc
      simp [editAccount, bind, Run.bind, put, invoke, getSys, readInt, readIntLoop,
        ignoreOne_eq, readLine_eq, store, Outcome.world, hacc, hfound, hchoice]
    · cases hp : entry (fun _ => false) "Invalid input. Please enter a number: " r2 with
      | waiting r e =>
        left
        subst hc
        simp [editAccount, bind, Run.bind, put, invoke, getSys, readInt, readIntLoop,
          ignoreOne, readLine, store, Outcome.world, hacc, hfound, hchoice, hp]
      | accepted pw r3 e3 =>
        exact Or.inr (Or.inr (Or.inr ⟨hc, pw, h3 hc pw r3 e3 hp⟩))
    · exact Or.inl (h4 hc)
  refine ⟨hcases, ?_, ?_, ?_, ?_, ?_, ?_⟩
  · rcases hshape with hs | ⟨_, x, hs⟩ | ⟨_, x, hs⟩ | ⟨_, x, hs⟩
    · exact ⟨B.node (B.load_Server w.sys) account, rfl, rfl, Or.inl hs⟩
    · exact ⟨{ B.node (B.load_Server w.sys) account with name := x }, rfl, rfl,
        Or.inr (Or.inl hs)⟩
    · exact ⟨{ B.node (B.load_Server w.sys) account with adress := x }, rfl, rfl,
        Or.inr (Or.inl hs)⟩
    · exact ⟨{ B.node (B.load_Server w.sys) account with password := x }, rfl, rfl,
        Or.inr (Or.inr ⟨x, hs⟩)⟩
  · intro hc newName rest hl
    refine ⟨(editAccount B w).world, ?_, ?_, h1 hc newName rest hl⟩ <;>
    · subst hc
      simp [editAccount, bind, Run.bind, put, invoke, getSys, readInt, readIntLoop,
        ignoreOne, readLine, store, Outcome.world, hacc, hfound, hchoice, hl]
  · intro hc newAddress rest hl
    refine ⟨(editAccount B w).world, ?_, ?_, h2 hc newAddress rest hl⟩ <;>
    · subst hc
      simp [editAccount, bind, Run.bind, put, invoke, getSys, readInt, readIntLoop,
        ignoreOne, readLine, store, Outcome.world, hacc, hfound, hchoice, hl]
  · intro hc newPassword r3 e3 hp
    refine ⟨(editAccount B w).world, ?_, ?_, h3 hc newPassword r3 e3 hp⟩ <;>
    · subst hc
      simp [editAccount, bind, Run.bind, put, invoke, getSys, readInt, readIntLoop,
        ignoreOne, readLine, store, Outcome.world, hacc, hfound, hchoice, hp]
  · intro hc
    refine ⟨(editAccount B w).world, ?_, ?_, h4 hc⟩ <;>
    · subst hc
      simp [editAccount, bind, Run.bind, put, invoke, getSys, readInt, readIntLoop,
        ignoreOne, readLine, store, Outcome.world, hacc, hfound, hchoice]
  · intro hA hU hD hAdd
    rcases hshape with hs | ⟨hc, x, hs⟩ | ⟨hc, x, hs⟩ | ⟨hc, x, hs⟩
    · rw [hs]
      exact ⟨rfl, rfl, fun _ => ⟨rfl, rfl⟩, fun _ => ⟨rfl, rfl⟩, fun _ => ⟨rfl, rfl⟩,
        fun _ => rfl⟩
    · rw [hs, hU, hA { B.node (B.load_Server w.sys) account with name := x } rfl]
      exact ⟨rfl, rfl, fun _ => ⟨rfl, rfl⟩, fun h => by omega, fun h => by omega,
        fun h => by omega⟩
    · rw [hs, hU, hA { B.node (B.load_Server w.sys) account with adress := x } rfl]
      exact ⟨rfl, rfl, fun h => by omega, fun _ => ⟨rfl, rfl⟩, fun h => by omega,
        fun h => by omega⟩
    · rw [hs, hU, hAdd, hD, hA { B.node (B.load_Server w.sys) account with password := x } rfl]
      exact ⟨rfl, rfl, fun h => by omega, fun h => by omega, fun _ => ⟨rfl, rfl⟩,
        fun h => by omega⟩

/-- Witness of C13: the name of account 100 of the scenario of spec §8 is edited; the
stores of the spec model satisfy the four conditions on the node pointer. -/
theorem editAccount_keeps_number_and_balance_witness :
    (∃ w1, editAccount Spec.backend (typed "100\n1\nAnna\n" Spec.scenario)
        = .returned () w1 ∧
      w1.calls = [] ++ [.load_Server, .search 100, .update_server] ∧
      w1.sys = Spec.update_server (Spec.backend.assign 100
        ⟨"Anna", "1 High St", 100, 1111, 600⟩ (Spec.load_Server Spec.scenario))) ∧
    (Spec.node (editAccount Spec.backend
      (typed "100\n1\nAnna\n" Spec.scenario)).world.sys 100).account_number = 100 ∧
    (Spec.node (editAccount Spec.backend
      (typed "100\n1\nAnna\n" Spec.scenario)).world.sys 100).balance = 600 :=
  have h := editAccount_keeps_number_and_balance Spec.backend
    (typed "100\n1\nAnna\n" Spec.scenario) 100 1 100 '\n' "\n1\nAnna\n".toList
    "Anna\n".toList [] [] (by decide) (by decide) (by decide)
  have laws := h.2.2.2.2.2.2
    (fun a ha => Spec.node_assign _ 100 ⟨"Ann", "1 High St", 100, 1111, 600⟩ a (by decide) ha)
    (fun _ => rfl) (fun _ => rfl) (fun _ _ => rfl)
  ⟨h.2.2.1 rfl "Anna".toList [] (by decide), laws.1, laws.2.1⟩

/-! ### A log that ends in the middle of a pair -/

/-- On a log of complete pairs of `int` values followed by one account number, the scan
prints the lines of the complete pairs and, when the trailing number is the queried
one, one more line with the amount left over in `amount`; `found` is set when a pair
matches or the trailing number does. -/
theorem scanLog_trailing (accountNumber trailing : Int) (log : List (Int × Int))
    (hk : fitsInt accountNumber = true) :
    intFields log → ∀ amount0, scanLog accountNumber (logFields log ++ [trailing]) amount0
      = (historyLines accountNumber log
          ++ (if trailing = accountNumber then historyLine (staleAmount amount0 log) else []),
        log.any (fun p => p.1 == accountNumber) || decide (trailing = accountNumber)) := by
  induction log with
  | nil =>
    intro _ a
    by_cases h : trailing = accountNumber
    · subst h
      simp [logFields, scanLog, historyLines, historyLine, staleAmount, hk]
    · cases hf : fitsInt trailing <;>
      simp [logFields, scanLog, historyLines, staleAmount, h, hf]
  | cons p rest ih =>
    intro hint a
    obtain ⟨acc, amount⟩ := p
    have h1 := (hint (acc, amount) (List.mem_cons_self _ _)).1
    have h2 := (hint (acc, amount) (List.mem_cons_self _ _)).2
    simp only at h1 h2
    have ih1 := ih (intFields_tail _ _ hint) amount
    simp only [logFields, List.cons_append, scanLog, h1, h2, clampInt_of_fitsInt _ h2,
      if_true, ih1, staleAmount]
    by_cases h : acc = accountNumber
    · simp [h, ih1, historyLines, historyLine, List.filter_cons]
    · have hb : (acc == accountNumber) = false := by simpa using h
      simp [h, hb, ih1, historyLines, List.filter_cons]

/-- The line of a matching pair is never the closing message, nor nothing. -/
theorem historyLine_ne_closing (amount accountNumber : Int) (log : List (Int × Int)) :
    historyLine amount ≠ historyClosing accountNumber log := by
  unfold historyLine historyClosing
  split <;> split <;> simp

/-- C14 fails: a trailing account number is not ignored.  For a log of complete
pairs of `int` values followed by the single account number `trailing`, `viewTransactionHistory`
returns having printed the lines of the complete pairs and then, when `trailing` is
the queried number, one more `Deposit`/`Withdrawal` line with the amount left over in
`amount` (that of the last pair, or the indeterminate start value) instead of the
closing message of the complete pairs; the output is that of the log without the
trailing number exactly when `trailing` differs from the queried number.
`viewCustomerTransactionHistory` prints the same once the credentials match and the
account is found. -/
theorem history_trailing_account_number (B : Backend S P) (w : World S) (amount0 : Int)
    (accountNumber trailing : Int) (log : List (Int × Int)) (r1 : List Char)
    (e1 : List Out)
    (hacc : entry (fun _ => false) askNumber w.cin = .accepted accountNumber r1 e1)
    (hint : intFields log)
    (hlog : B.transaction_txt w.sys = some (logFields log ++ [trailing])) :
    viewTransactionHistory B amount0 w = .returned ()
      { w with
        cin := r1
        cout := w.cout ++ [.str "\n--- Transaction History ---\n\n",
            .str "Enter Account Number: "] ++ e1
          ++ [.str "\nTransaction History for Account ", .int accountNumber, .str ":\n\n"]
          ++ historyLines accountNumber log
          ++ historyTrailing accountNumber trailing amount0 log } ∧
    (historyTrailing accountNumber trailing amount0 log = historyClosing accountNumber log
      ↔ trailing ≠ accountNumber) ∧
    ∀ (password : Int) (r2 : List Char) (e2 : List Out) (account : P),
      entry (fun _ => false) askNumber r1 = .accepted password r2 e2 →
      B.match_ w.sys accountNumber password = true →
      B.search (B.load_Server w.sys) accountNumber = some account →
      B.transaction_txt (B.load_Server w.sys) = some (logFields log ++ [trailing]) →
      viewCustomerTransactionHistory B amount0 w = .returned ()
        { cin := r2
          cout := w.cout ++ [.str "\n--- Transaction History ---\n\n",
              .str "Enter Account Number: "] ++ e1 ++ [.str "Enter Password: "] ++ e2
            ++ [.str "\nTransaction History for Account ", .int accountNumber, .str ":\n\n"]
            ++ historyLines accountNumber log
            ++ historyTrailing accountNumber trailing amount0 log
          calls := w.calls ++ [.match_ accountNumber password, .load_Server,
            .search accountNumber]
          sys := B.load_Server w.sys } := by
  have hfit : fitsInt accountNumber = true := by
    have := promptLoop_range _ _ _ _ _ _ _ _ hacc
    simpa [fitsInt] using this
  simp only [askNumber] at hacc ⊢
  refine ⟨?_, ?_, ?_⟩
  · by_cases hk : trailing = accountNumber
    · simp [viewTransactionHistory, printHistory, bind, Run.bind, put, getSys, readInt,
        readIntLoop, hacc, hlog, scanLog_trailing _ _ _ hfit hint, historyTrailing, hk, pure]
    · by_cases h : log.any (fun p => p.1 == accountNumber) = true
      · simp [viewTransactionHistory, printHistory, bind, Run.bind, put, getSys, readInt,
          readIntLoop, hacc, hlog, scanLog_trailing _ _ _ hfit hint, historyTrailing, historyClosing, hk, h,
          pure]
      · simp [viewTransactionHistory, printHistory, bind, Run.bind, put, getSys, readInt,
          readIntLoop, hacc, hlog, scanLog_trailing _ _ _ hfit hint, historyTrailing, historyClosing, hk, h,
          pure]
  · by_cases hk : trailing = accountNumber
    · simp only [historyTrailing, hk, if_true, ne_eq, not_true_eq_false, iff_false]
      exact historyLine_ne_closing _ _ _
    · simp [historyTrailing, hk]
  · intro password r2 e2 account hpw hm hs hl
    by_cases hk : trailing = accountNumber
    · simp [viewCustomerTransactionHistory, printHistory, bind, Run.bind, put, getSys,
        readInt, readIntLoop, invoke, hacc, hpw, hm, hs, hl, scanLog_trailing _ _ _ hfit hint,
        historyTrailing, hk, pure]
    · by_cases h : log.any (fun p => p.1 == accountNumber) = true
      · simp [viewCustomerTransactionHistory, printHistory, bind, Run.bind, put, getSys,
          readInt, readIntLoop, invoke, hacc, hpw, hm, hs, hl, scanLog_trailing _ _ _ hfit hint,
          historyTrailing, historyClosing, hk, h, pure]
      · simp [viewCustomerTransactionHistory, printHistory, bind, Run.bind, put, getSys,
          readInt, readIntLoop, invoke, hacc, hpw, hm, hs, hl, scanLog_trailing _ _ _ hfit hint,
          historyTrailing, historyClosing, hk, h, pure]

/-- Witness of C14: the log of the scenario of spec §8, `(100, 100)`, followed by the
single account number 100; the history of account 100 shows the deposit twice. -/
theorem history_trailing_account_number_witness :
    viewTransactionHistory Spec.backend 0
        (typed "100\n" { Spec.scenario with transaction := some [100, 100, 100] })
      = .returned ()
        { cin := ['\n']
          cout := [.str "\n--- Transaction History ---\n\n", .str "Enter Account Number: ",
            .str "\nTransaction History for Account ", .int 100, .str ":\n\n",
            .str "Deposit: +", .int 100, .str "\n", .str "Deposit: +", .int 100, .str "\n"]
          calls := []
          sys := { Spec.scenario with transaction := some [100, 100, 100] } } :=
  (history_trailing_account_number Spec.backend
    (typed "100\n" { Spec.scenario with transaction := some [100, 100, 100] })
    0 100 100 [(100, 100)] ['\n'] [] (by decide) (by decide) (by decide)).1.trans
    (by simp [typed, historyLines, historyLine, historyTrailing, staleAmount])

/-! ### The scenario of the specification -/

/-- The scenario of spec §8 on the model: a deposit of 100 into account 100 (balance
500) gives balance 600 and the log entry `(100, 100)`, the three accounts having their
credential entries; a transfer of 50 from 100 to
150 gives balances 550 and 50 and the log entries `(100, -50)` and `(150, 50)`;
deleting account 50 leaves the accounts 100 and 150. -/
theorem scenario_of_the_spec :
    (Spec.session id [(.addAccount, "\nAnn\n1 High St\n100\n1111\n500\n"),
        (.addAccount, "\nBea\n2 Low Rd\n50\n2222\n40\n"),
        (.addAccount, "\nCy\n3 Mid Ln\n150\n3333\n0\n"),
        (.depositMoney 'n', "100\n100\ny\n")] Spec.empty).server
      = [⟨"Bea", "2 Low Rd", 50, 2222, 40⟩, ⟨"Ann", "1 High St", 100, 1111, 600⟩,
          ⟨"Cy", "3 Mid Ln", 150, 3333, 0⟩] ∧
    (Spec.session id [(.addAccount, "\nAnn\n1 High St\n100\n1111\n500\n"),
        (.addAccount, "\nBea\n2 Low Rd\n50\n2222\n40\n"),
        (.addAccount, "\nCy\n3 Mid Ln\n150\n3333\n0\n"),
        (.depositMoney 'n', "100\n100\ny\n")] Spec.empty).transaction = some [100, 100] ∧
    (Spec.session id [(.addAccount, "\nAnn\n1 High St\n100\n1111\n500\n"),
        (.addAccount, "\nBea\n2 Low Rd\n50\n2222\n40\n"),
        (.addAccount, "\nCy\n3 Mid Ln\n150\n3333\n0\n"),
        (.depositMoney 'n', "100\n100\ny\n")] Spec.empty).table
      = [(150, 3333), (50, 2222), (100, 1111)] ∧
    (transferMoney Spec.backend 'n' (typed "100\n150\n50\ny\n" Spec.scenario)).world.calls
      = [.load_Server, .search 100, .search 150, .transfer 100 50 150] ∧
    (transferMoney Spec.backend 'n' (typed "100\n150\n50\ny\n" Spec.scenario)).world.sys.server
      = [⟨"Bea", "2 Low Rd", 50, 2222, 40⟩, ⟨"Ann", "1 High St", 100, 1111, 550⟩,
          ⟨"Cy", "3 Mid Ln", 150, 3333, 50⟩] ∧
    (transferMoney Spec.backend 'n' (typed "100\n150\n50\ny\n" Spec.scenario)).world.sys.transaction
      = some [100, 100, 100, -50, 150, 50] ∧
    (deleteAccount Spec.backend 'n' (typed "50\ny\n" Spec.scenario)).world.sys.server
      = [⟨"Ann", "1 High St", 100, 1111, 600⟩, ⟨"Cy", "3 Mid Ln", 150, 3333, 0⟩] ∧
    Spec.find (deleteAccount Spec.backend 'n' (typed "50\ny\n" Spec.scenario)).world.sys.Root 50
      = none ∧
    (deleteAccount Spec.backend 'n' (typed "50\ny\n" Spec.scenario)).world.sys.table
      = [(100, 1111), (150, 3333)] := by
  refine ⟨?_, ?_, ?_, ?_, ?_, ?_, ?_, ?_, ?_⟩ <;> decide

end BankCore
